import Mathlib

/-!
# AMF3 serializer of node_amf_cc (`src/serializer.cc`)

A shallow embedding of `Serializer` and a verification of its byte output.

* The byte buffer `buffer_` is a `List Nat` (every entry is a byte, `< 256`);
  each writer takes the buffer and returns the extended buffer.
* `die` aborts the running call, so writers return `Except String (List Nat)`.
* JavaScript values reach the code through V8 handles; `Value` records exactly
  what the V8 calls used by the serializer observe of a value.
* A JavaScript number is the 64-bit pattern of its IEEE-754 binary64.
* The static `Serializer::bigEndian` is the parameter `bigEndian`.
-/

namespace AMF

/-- Modelled from the spec: `AMF::AMF3_UNDEFINED` of amf.h (not under src/), the AMF3 marker 0x00. -/
def AMF3_UNDEFINED : Nat := 0x00

/-- Modelled from the spec: `AMF::AMF3_NULL` of amf.h (not under src/), the AMF3 marker 0x01. -/
def AMF3_NULL : Nat := 0x01

/-- Modelled from the spec: `AMF::AMF3_FALSE` of amf.h (not under src/), the AMF3 marker 0x02. -/
def AMF3_FALSE : Nat := 0x02

/-- Modelled from the spec: `AMF::AMF3_TRUE` of amf.h (not under src/), the AMF3 marker 0x03. -/
def AMF3_TRUE : Nat := 0x03

/-- Modelled from the spec: `AMF::AMF3_INTEGER` of amf.h (not under src/), the AMF3 marker 0x04. -/
def AMF3_INTEGER : Nat := 0x04

/-- Modelled from the spec: `AMF::AMF3_DOUBLE` of amf.h (not under src/), the AMF3 marker 0x05. -/
def AMF3_DOUBLE : Nat := 0x05

/-- Modelled from the spec: `AMF::AMF3_STRING` of amf.h (not under src/), the AMF3 marker 0x06. -/
def AMF3_STRING : Nat := 0x06

/-- Modelled from the spec: `AMF::AMF3_DATE` of amf.h (not under src/), the AMF3 marker 0x08. -/
def AMF3_DATE : Nat := 0x08

/-- Modelled from the spec: `AMF::AMF3_ARRAY` of amf.h (not under src/), the AMF3 marker 0x09. -/
def AMF3_ARRAY : Nat := 0x09

/-- Modelled from the spec: `AMF::AMF3_OBJECT` of amf.h (not under src/), the AMF3 marker 0x0A. -/
def AMF3_OBJECT : Nat := 0x0A

end AMF

/-! ## IEEE-754 binary64 bit patterns -/

namespace Double

/-- Sign bit (bit 63) of a binary64 pattern. -/
def sign (b : Nat) : Nat := (b / 2 ^ 63) % 2

/-- Biased exponent field (bits 52..62). -/
def expo (b : Nat) : Nat := (b / 2 ^ 52) % 2048

/-- Fraction field (bits 0..51). -/
def frac (b : Nat) : Nat := b % 2 ^ 52

/-- The C library test `isnan`: exponent all ones and a non-zero fraction. -/
def isNaN (b : Nat) : Bool := expo b == 2047 && frac b != 0

/-- Plus or minus infinity: exponent all ones and a zero fraction. -/
def isInf (b : Nat) : Bool := expo b == 2047 && frac b == 0

/-- Integer significand: the fraction, with the hidden bit for a normal number. -/
def significand (b : Nat) : Nat := if expo b = 0 then frac b else 2 ^ 52 + frac b

/-- Effective biased exponent: a finite pattern has magnitude
`significand * 2 ^ (scale - 1075)`. -/
def scale (b : Nat) : Nat := if expo b = 0 then 1 else expo b

/-- Magnitude of a finite pattern rounded toward zero to an integer. -/
def truncMagnitude (b : Nat) : Nat :=
  if 1075 ≤ scale b then significand b * 2 ^ (scale b - 1075)
  else significand b / 2 ^ (1075 - scale b)

/-- The V8 call chain `value->ToInteger()->Value()` on a number: ToInteger maps
NaN to 0 and truncates toward zero; `Integer::Value` casts the result to
`int64_t`. A result outside the int64 range (infinities included) is taken to be
`INT64_MIN`, the value the x86-64 conversion instruction yields. -/
def toInt64 (b : Nat) : Int :=
  if isNaN b then 0
  else if isInf b then -(2 ^ 63)
  else
    let z : Int := if sign b = 1 then -(truncMagnitude b : Int) else (truncMagnitude b : Int)
    if -(2 ^ 63) ≤ z ∧ z < 2 ^ 63 then z else -(2 ^ 63)

/-- The conversion `(double) v` of an `int64_t`, given by the (integer) value of
the resulting double: exact below 2^53, otherwise rounded to 53 significant bits,
to nearest with ties to even. The number `k` of bits rounded away is the bit
length of the magnitude less 53, at most 11 for an `int64_t`. -/
def ofInt64 (v : Int) : Int :=
  let a := v.natAbs
  if a < 2 ^ 53 then v
  else
    let k := ((List.range 11).filter (fun j => decide (2 ^ (53 + j) ≤ a))).length
    let q := a / 2 ^ k
    let r := a % 2 ^ k
    let up : Bool := decide (2 ^ (k - 1) < r) || (decide (r = 2 ^ (k - 1)) && q % 2 == 1)
    let m : Nat := if up then (q + 1) * 2 ^ k else q * 2 ^ k
    if v < 0 then -(m : Int) else (m : Int)

/-- The C++ comparison `val == d` of an `int64_t` with a `double`: `val` is
converted to double and the two doubles are compared (NaN equals nothing, and
an integer never equals an infinity). -/
def eqInt64 (v : Int) (b : Nat) : Bool :=
  !isNaN b && !isInf b &&
    (let s : Int := if sign b = 1 then -1 else 1
     if 1075 ≤ scale b then
       decide (ofInt64 v = s * (significand b : Int) * 2 ^ (scale b - 1075))
     else
       decide (ofInt64 v * 2 ^ (1075 - scale b) = s * (significand b : Int)))

/-- The eight bytes `c_value[0..7]` of the union holding the double, in the
storage order of the host. -/
def storage (hostBigEndian : Bool) (b : Nat) : List Nat :=
  let littleEndian := (List.range 8).map (fun i => (b / 2 ^ (8 * i)) % 256)
  if hostBigEndian then littleEndian.reverse else littleEndian

end Double

/-! ## JavaScript values as the V8 calls of the serializer see them -/

/-- One entry of `value->GetPropertyNames()`: the name converted with `ToString`,
the answer of `HasRealNamedProperty(name)`, and the value `Get(name)`. -/
structure Property (α : Type) where
  /-- Text of the property name. -/
  name : String
  /-- Answer of `HasRealNamedProperty`. -/
  real : Bool
  /-- Result of `Get`. -/
  value : α

/-- A non-empty `Handle<Value>`.

* `number bits`: a Number, by the bit pattern of its double.
* `array fastObjectElements elems`: a JavaScript array (`IsArray`); the flag is
  V8 `HasFastObjectElements`, which `CloneElementAt` consults.
* `object callable getTime props`: any other V8 object. `callable` is
  `IsFunction` (in V8 a function is an object). `getTime` is `some t` when
  `Get("getTime")` is a function, `t` being the `NumberValue()` of what the call
  returns. `props` are the enumerated property names in order.
* `other`: a handle that none of the V8 type tests of `writeValue` accepts. -/
inductive Value where
  | undefined
  | null
  | string (s : String)
  | number (bits : Nat)
  | boolean (b : Bool)
  | array (fastObjectElements : Bool) (elems : List Value)
  | object (callable : Bool) (getTime : Option Nat) (props : List (Property Value))
  | other

namespace Value

/-- V8 `Value::IsObject`: arrays, functions and all other objects. -/
def IsObject : Value → Bool
  | array _ _ => true
  | object _ _ _ => true
  | _ => false

/-- V8 `Value::IsFunction`. -/
def IsFunction : Value → Bool
  | object callable _ _ => callable
  | _ => false

end Value

/-- UTF-8 bytes of a string, as `String::WriteUtf8` stores them;
`String::Utf8Length` is the length of this list. -/
def utf8Bytes (s : String) : List Nat :=
  (s.toList.flatMap String.utf8EncodeChar).map UInt8.toNat

/-- The 32-bit `int` whose two-complement bit pattern is `u % 2^32`. -/
def int32OfBits (u : Nat) : Int :=
  if u % 2 ^ 32 < 2 ^ 31 then ((u % 2 ^ 32 : Nat) : Int) else ((u % 2 ^ 32 : Nat) : Int) - 2 ^ 32

/-- The `int` expression `(len << 1) | 1`, for `int len` initialised from a
length, computed on 32-bit patterns with wrap-around. -/
def lengthFlag (len : Nat) : Int :=
  int32OfBits (((len % 2 ^ 32) <<< 1) ||| 1)

namespace Serializer

/-- Constant `INSTANCE_NO_TRAITS_NO_EXTERNALIZABLE`. -/
def INSTANCE_NO_TRAITS_NO_EXTERNALIZABLE : Int := 11

/-- The array `SERIALIZED_NaN`, initialised from the string literal
`"\0\0\0\0\0\0\xF8\x7F"`: its eight characters and the terminating NUL the
literal adds. `sizeof(SERIALIZED_NaN)` is the length of this list. -/
def SERIALIZED_NaN : List Nat := [0, 0, 0, 0, 0, 0, 0xF8, 0x7F, 0]

/-- Modelled from the spec: the default value of the `writeMarker` parameter of
`writeUTF8`, `writeDouble` and `writeU29`, declared in serializer.h (not under
src/); the marker is suppressed unless asked for. -/
def writeMarkerDefault : Bool := false

/-- Modelled from the spec: `die` of utils.h (not under src/) aborts the call
with the given message. -/
def die {α : Type} (msg : String) : Except String α := Except.error msg

/-- `writeU8(char n)`; `buffer_.write` appends the byte. -/
def writeU8 (n : Nat) (buf : List Nat) : List Nat := buf ++ [n % 256]

/-- `writeBinaryString(str, len)`: bytes `str[0] .. str[len-1]`. -/
def writeBinaryString (str : List Nat) (len : Nat) (buf : List Nat) : List Nat :=
  (List.range len).foldl (fun b i => writeU8 (str.getD i 0) b) buf

/-- The `while (n >= 0x80)` loop of `writeU29`, pushing
`0x80 | (n >>= 7 & 0x7F)` as a `char`. Since `>>=` binds weaker than `&`, the
shift count is `7 & 0x7F = 7` and the pushed value is `0x80 | n` for the shifted
`n`, cut to eight bits. `fuel` bounds the number of rounds. -/
def u29Loop : Nat → Nat → List Nat → List Nat
  | 0, _, bytes => bytes
  | fuel + 1, n, bytes =>
    if 0x80 ≤ n then
      let n1 := n >>> (7 &&& 0x7F)
      u29Loop fuel n1 (bytes ++ [(0x80 ||| n1) % 256])
    else bytes

/-- The vector `bytes` of `writeU29` when the loops are done, least significant
group first. The loop runs fewer than `n` rounds. -/
def u29Bytes (n : Nat) : List Nat :=
  u29Loop n n [(n &&& 0x7F) % 256]

/-- `writeU29(int64_t n, bool writeMarker)`. -/
def writeU29 (n : Int) (writeMarker : Bool) (buf : List Nat) : Except String (List Nat) :=
  if n < 0 then die "U29 range error - negative number"
  else
    let bytes := u29Bytes n.toNat
    let buf1 := if writeMarker then writeU8 AMF.AMF3_INTEGER buf else buf
    Except.ok (bytes.reverse.foldl (fun b x => writeU8 x b) buf1)

/-- `writeDouble(value, writeMarker)`, `value->NumberValue()` having bits `d`. -/
def writeDouble (bigEndian : Bool) (d : Nat) (writeMarker : Bool) (buf : List Nat) : List Nat :=
  let buf1 := if writeMarker then writeU8 AMF.AMF3_DOUBLE buf else buf
  if Double.isNaN d then
    writeBinaryString SERIALIZED_NaN SERIALIZED_NaN.length buf1
  else
    let char_value := Double.storage bigEndian d
    if bigEndian then
      (List.range 7).foldl (fun b i => writeU8 (char_value.getD i 0) b) buf1
    else
      (List.range 8).reverse.foldl (fun b i => writeU8 (char_value.getD i 0) b) buf1

/-- `writeNumber(value, writeMarker)` for a Number with bits `d`. `ToInteger` of
a Number yields an Integer, so the test `!integer->IsNull()` passes. -/
def writeNumber (bigEndian : Bool) (d : Nat) (writeMarker : Bool) (buf : List Nat) :
    Except String (List Nat) :=
  let val := Double.toInt64 d
  if Double.eqInt64 val d && decide (0 ≤ val) && decide (val < 0x2000000) then
    writeU29 val writeMarker buf
  else
    Except.ok (writeDouble bigEndian d writeMarker buf)

/-- `writeUTF8(value, writeMarker)`. -/
def writeUTF8 (value : String) (writeMarker : Bool) (buf : List Nat) : Except String (List Nat) := do
  let encodedLen := (utf8Bytes value).length
  let buf1 := if writeMarker then writeU8 AMF.AMF3_STRING buf else buf
  let flag := lengthFlag encodedLen
  let buf2 ← writeU29 flag writeMarkerDefault buf1
  pure ((utf8Bytes value).foldl (fun b c => writeU8 c b) buf2)

/-- `writeUndefined()`. -/
def writeUndefined (buf : List Nat) : List Nat := writeU8 AMF.AMF3_UNDEFINED buf

/-- `writeNull()`. -/
def writeNull (buf : List Nat) : List Nat := writeU8 AMF.AMF3_NULL buf

/-- `writeBool(value)`. -/
def writeBool (value : Bool) (buf : List Nat) : List Nat :=
  writeU8 (if value then AMF.AMF3_TRUE else AMF.AMF3_FALSE) buf

/-- `writeDateIf(date)`: the answer and the buffer after the call. `getTime` is
`some dateDouble` when `date->Get("getTime")` is a function, `dateDouble` being
the number its call returned. -/
def writeDateIf (bigEndian : Bool) (getTime : Option Nat) (buf : List Nat) :
    Except String (Bool × List Nat) :=
  match getTime with
  | none => Except.ok (false, buf)
  | some dateDouble => do
    let buf1 := writeU8 AMF.AMF3_DATE buf
    let buf2 ← writeU29 1 writeMarkerDefault buf1
    pure (true, writeDouble bigEndian dateDouble writeMarkerDefault buf2)

mutual

/-- `writeValue(value)` on a non-empty handle. The bodies of `writeArray` and
`writeObject` stand in their branches, as the recursion runs through them; they
are stated on their own as `writeArray` and `writeObject` below. -/
def writeValue (bigEndian : Bool) : Value → List Nat → Except String (List Nat)
  | Value.undefined, buf => Except.ok (writeUndefined buf)
  | Value.null, buf => Except.ok (writeNull buf)
  | Value.string s, buf => writeUTF8 s true buf
  | Value.number d, buf => writeNumber bigEndian d true buf
  | Value.boolean b, buf => Except.ok (writeBool b buf)
  | Value.array fastObjectElements elems, buf => do
    -- writeArray
    let buf1 := writeU8 AMF.AMF3_ARRAY buf
    let len := int32OfBits elems.length
    let flag := lengthFlag elems.length
    let buf2 ← writeU29 flag writeMarkerDefault buf1
    let buf3 ← writeUTF8 "" writeMarkerDefault buf2
    writeElements bigEndian fastObjectElements len.toNat elems buf3
  | Value.object _ getTime props, buf => do
    let (isDate, buf0) ← writeDateIf bigEndian getTime buf
    if isDate then pure buf0
    else
      -- writeObject
      let buf1 := writeU8 AMF.AMF3_OBJECT buf0
      let buf2 ← writeU29 INSTANCE_NO_TRAITS_NO_EXTERNALIZABLE writeMarkerDefault buf1
      let buf3 ← writeUTF8 "Object" writeMarkerDefault buf2
      let buf4 ← writeProperties bigEndian props buf3
      writeUTF8 "" writeMarkerDefault buf4
  | Value.other, buf => Except.ok buf

/-- The loop `for (int i = 0; i < len; i++) writeValue(value->CloneElementAt(i))`
of `writeArray`, with `count` rounds left. `CloneElementAt` returns a
`Local<Object>`: a copy of the element when the array has fast object elements
and the element is an object, and the empty handle otherwise; on the empty
handle `writeValue` takes its first branch, `writeUndefined()`. -/
def writeElements (bigEndian : Bool) (fastObjectElements : Bool) :
    Nat → List Value → List Nat → Except String (List Nat)
  | 0, _, buf => Except.ok buf
  | _ + 1, [], buf => Except.ok buf
  | count + 1, e :: rest, buf => do
    let buf1 ← (if fastObjectElements && e.IsObject then writeValue bigEndian e buf
                else Except.ok (writeUndefined buf))
    writeElements bigEndian fastObjectElements count rest buf1

/-- The property loop of `writeObject`. -/
def writeProperties (bigEndian : Bool) :
    List (Property Value) → List Nat → Except String (List Nat)
  | [], buf => Except.ok buf
  | p :: rest, buf =>
    if !p.real then writeProperties bigEndian rest buf
    else if p.value.IsFunction then writeProperties bigEndian rest buf
    else do
      let buf1 ← writeUTF8 p.name writeMarkerDefault buf
      let buf2 ← writeValue bigEndian p.value buf1
      writeProperties bigEndian rest buf2

end

/-- `writeArray(value)` for an array with the given elements. -/
def writeArray (bigEndian : Bool) (fastObjectElements : Bool) (elems : List Value)
    (buf : List Nat) : Except String (List Nat) := do
  let buf1 := writeU8 AMF.AMF3_ARRAY buf
  let len := int32OfBits elems.length
  let flag := lengthFlag elems.length
  let buf2 ← writeU29 flag writeMarkerDefault buf1
  let buf3 ← writeUTF8 "" writeMarkerDefault buf2
  writeElements bigEndian fastObjectElements len.toNat elems buf3

/-- `writeObject(value)` for an object with the given property names. -/
def writeObject (bigEndian : Bool) (props : List (Property Value)) (buf : List Nat) :
    Except String (List Nat) := do
  let buf1 := writeU8 AMF.AMF3_OBJECT buf
  let buf2 ← writeU29 INSTANCE_NO_TRAITS_NO_EXTERNALIZABLE writeMarkerDefault buf1
  let buf3 ← writeUTF8 "Object" writeMarkerDefault buf2
  let buf4 ← writeProperties bigEndian props buf3
  writeUTF8 "" writeMarkerDefault buf4

/-- The native object behind a JavaScript `serializer` instance. -/
structure State where
  /-- Member `buffer_`. -/
  buffer_ : List Nat

/-- `Serializer::clear()`. -/
def clear (_self : State) : State := State.mk []

/-- The constructor `Serializer::Serializer()`. -/
def new : State := clear (State.mk [])

/-- `Serializer::Serialize(args)` on the instance `self`: the bytes handed back
to JavaScript (the whole of `buffer_`) and the instance after the call. -/
def Serialize (bigEndian : Bool) (self : State) (args : List Value) :
    Except String (List Nat × State) :=
  match args with
  | [value] => do
    let buf ← writeValue bigEndian value self.buffer_
    pure (buf, State.mk buf)
  | _ => die "Need exactly one argument"

/-- The spec operation `encode(value)`: one `serialize` call on a fresh instance. -/
def encode (bigEndian : Bool) (value : Value) : Except String (List Nat) :=
  (Serialize bigEndian new [value]).map Prod.fst

end Serializer

open Serializer

/-! ## Specification-side definitions -/

/-- A conforming AMF3 reader of a U29, following the AMF3 format (not code of
this repository): each of the first three bytes carries seven bits behind a
continuation bit (0x80), a fourth byte carries all eight bits. Returns the
number read and the bytes left over. -/
def readU29 : List Nat → Option (Nat × List Nat)
  | [] => none
  | b1 :: r1 =>
    if b1 < 0x80 then some (b1, r1)
    else match r1 with
      | [] => none
      | b2 :: r2 =>
        if b2 < 0x80 then some (((b1 &&& 0x7F) <<< 7) ||| b2, r2)
        else match r2 with
          | [] => none
          | b3 :: r3 =>
            if b3 < 0x80 then
              some (((((b1 &&& 0x7F) <<< 7) ||| (b2 &&& 0x7F)) <<< 7) ||| b3, r3)
            else match r3 with
              | [] => none
              | b4 :: r4 =>
                some (((((((b1 &&& 0x7F) <<< 7) ||| (b2 &&& 0x7F)) <<< 7)
                  ||| (b3 &&& 0x7F)) <<< 8) ||| b4, r4)

/-- The bytes `writeU29(n)` appends after the optional marker: the vector
`bytes` written from its last entry down to its first. -/
def u29Wire (n : Nat) : List Nat := (u29Bytes n).reverse.map (fun x => x % 256)

namespace Double

/-- Finite pattern: neither a NaN nor an infinity. -/
def isFinite (b : Nat) : Prop := expo b ≠ 2047

/-- The rational number a finite binary64 pattern stands for,
`(-1)^sign * significand * 2^(scale - 1075)`. -/
def value (b : Nat) : ℚ :=
  (if sign b = 1 then -1 else 1) * (significand b : ℚ) * (2 : ℚ) ^ scale b / (2 : ℚ) ^ 1075

end Double

/-- The Number Encoding Rule of the spec: the number is integral and lies in
`[0, 2^25)`. A NaN or an infinity is not a number in that range. -/
def compactRule (d : Nat) : Prop :=
  Double.isFinite d ∧ (∃ z : ℤ, Double.value d = (z : ℚ)) ∧
    0 ≤ Double.value d ∧ Double.value d < 2 ^ 25

mutual

/-- Every string (property names included) has fewer than 2^30 UTF-8 bytes and
every array fewer than 2^30 elements, so that each `(len << 1) | 1` is a
non-negative `int`. -/
def Value.fits : Value → Bool
  | Value.string s => decide ((utf8Bytes s).length < 2 ^ 30)
  | Value.array _ elems => decide (elems.length < 2 ^ 30) && fitsElements elems
  | Value.object _ _ props => fitsProperties props
  | _ => true

/-- All elements of an array fit. -/
def fitsElements : List Value → Bool
  | [] => true
  | e :: rest => e.fits && fitsElements rest

/-- All property names and values of an object fit. -/
def fitsProperties : List (Property Value) → Bool
  | [] => true
  | p :: rest =>
    decide ((utf8Bytes p.name).length < 2 ^ 30) && p.value.fits && fitsProperties rest

end

/-- The bytes `writeValue` appends for a value, empty when the call aborts. -/
def encodedBytes (bigEndian : Bool) (v : Value) : List Nat :=
  match writeValue bigEndian v [] with
  | Except.ok out => out
  | Except.error _ => []

/-- The bytes `writeUTF8` appends for a string written without marker, empty
when the call aborts. -/
def keyBytes (s : String) : List Nat :=
  match writeUTF8 s false [] with
  | Except.ok out => out
  | Except.error _ => []

/-- The properties `writeObject` writes: real ones whose value is no function. -/
def Property.written (p : Property Value) : Bool := p.real && !p.value.IsFunction

namespace Value

/-- V8 `Value::IsUndefined`. -/
def IsUndefined : Value → Bool
  | undefined => true
  | _ => false

/-- V8 `Value::IsNull`. -/
def IsNull : Value → Bool
  | null => true
  | _ => false

/-- V8 `Value::IsString`. -/
def IsString : Value → Bool
  | string _ => true
  | _ => false

/-- V8 `Value::IsNumber`. -/
def IsNumber : Value → Bool
  | number _ => true
  | _ => false

/-- V8 `Value::IsBoolean`. -/
def IsBoolean : Value → Bool
  | boolean _ => true
  | _ => false

/-- V8 `Value::IsArray`. -/
def IsArray : Value → Bool
  | array _ _ => true
  | _ => false

end Value

/-- Reading seven payload bits from each byte, most significant group first. -/
def readGroups (bytes : List Nat) : Nat :=
  bytes.foldl (fun acc b => acc * 128 + b % 128) 0

/-- A buffer operation that only appends: either it succeeds on every buffer and
appends the same bytes behind whatever the buffer holds, or it aborts on every
buffer with the same message. -/
def AppendOnly (f : List Nat → Except String (List Nat)) : Prop :=
  (∃ out, ∀ buf, f buf = Except.ok (buf ++ out)) ∨ (∃ msg, ∀ buf, f buf = Except.error msg)

/-! ## Basic facts about the writers -/

/-- The fuel of `u29Loop` is never the reason the loop stops: from `n` upward,
more fuel changes nothing. -/
theorem u29Loop_fuel_succ :
    ∀ (fuel n : Nat) (bytes : List Nat), n ≤ fuel →
      u29Loop (fuel + 1) n bytes = u29Loop fuel n bytes
  | 0, n, bytes, h => by
    have hn : n = 0 := Nat.le_zero.mp h
    subst hn
    simp [u29Loop]
  | fuel + 1, n, bytes, h => by
    have e1 : ∀ f, u29Loop (f + 1) n bytes =
        if 0x80 ≤ n then u29Loop f (n >>> (7 &&& 0x7F)) (bytes ++ [(0x80 ||| n >>> (7 &&& 0x7F)) % 256])
        else bytes := fun f => by rw [u29Loop]
    rw [e1 (fuel + 1), e1 fuel]
    by_cases hc : 0x80 ≤ n
    · simp only [hc, if_true]
      apply u29Loop_fuel_succ
      have h7 : (7 &&& 0x7F) = 7 := by decide
      rw [h7, Nat.shiftRight_eq_div_pow]
      have : n / 2 ^ 7 < n := Nat.div_lt_self (by omega) (by norm_num)
      omega
    · simp only [hc, if_false]

/-- The vector `bytes` of `writeU29` is the same for every fuel from `n` upward. -/
theorem u29Loop_fuel (n : Nat) (bytes : List Nat) :
    ∀ extra : Nat, u29Loop (n + extra) n bytes = u29Loop n n bytes
  | 0 => rfl
  | extra + 1 => by
    rw [← Nat.add_assoc, u29Loop_fuel_succ (n + extra) n bytes (Nat.le_add_right _ _)]
    exact u29Loop_fuel n bytes extra


theorem writeU8_foldl (xs buf : List Nat) :
    xs.foldl (fun b x => writeU8 x b) buf = buf ++ xs.map (fun x => x % 256) := by
  induction xs generalizing buf with
  | nil => simp
  | cons x rest ih =>
    rw [List.foldl_cons, ih]
    simp [writeU8]

theorem writeU29_ok (n : Int) (h : 0 ≤ n) (writeMarker : Bool) (buf : List Nat) :
    writeU29 n writeMarker buf =
      Except.ok (buf ++ (if writeMarker then [AMF.AMF3_INTEGER] else []) ++ u29Wire n.toNat) := by
  unfold writeU29
  rw [if_neg (not_lt.mpr h)]
  simp only [writeU8_foldl, u29Wire]
  cases writeMarker <;> simp [writeU8, AMF.AMF3_INTEGER]

theorem lengthFlag_small (len : Nat) (h : len < 2 ^ 30) :
    lengthFlag len = (((len <<< 1) ||| 1 : Nat) : Int) := by
  have h1 : len % 2 ^ 32 = len := Nat.mod_eq_of_lt (by omega)
  have h2 : (len <<< 1) ||| 1 = 2 * len + 1 := by
    rw [Nat.shiftLeft_eq, Nat.mul_comm]
    exact (Nat.mul_add_lt_is_or (i := 1) (by decide) len).symm
  unfold lengthFlag int32OfBits
  rw [h1, h2]
  have h3 : (2 * len + 1) % 2 ^ 32 = 2 * len + 1 := Nat.mod_eq_of_lt (by omega)
  rw [h3, if_pos (by omega)]

theorem utf8Bytes_lt (s : String) : ∀ x ∈ utf8Bytes s, x < 256 := by
  intro x hx
  unfold utf8Bytes at hx
  rw [List.mem_map] at hx
  obtain ⟨u, _, rfl⟩ := hx
  exact u.toNat_lt

theorem map_mod_of_lt (xs : List Nat) (h : ∀ x ∈ xs, x < 256) :
    xs.map (fun x => x % 256) = xs := by
  induction xs with
  | nil => rfl
  | cons x rest ih =>
    simp only [List.map_cons]
    rw [Nat.mod_eq_of_lt (h x (List.mem_cons_self _ _)),
      ih (fun y hy => h y (List.mem_cons_of_mem _ hy))]

theorem writeUTF8_ok (s : String) (h : (utf8Bytes s).length < 2 ^ 30) (writeMarker : Bool)
    (buf : List Nat) :
    writeUTF8 s writeMarker buf =
      Except.ok (buf ++ (if writeMarker then [AMF.AMF3_STRING] else []) ++
        u29Wire (((utf8Bytes s).length <<< 1) ||| 1) ++ utf8Bytes s) := by
  simp only [writeUTF8]
  rw [lengthFlag_small _ h, writeU29_ok _ (Int.natCast_nonneg _)]
  simp only [writeMarkerDefault, Int.toNat_ofNat, writeU8_foldl,
    map_mod_of_lt _ (utf8Bytes_lt s)]
  cases writeMarker <;> simp [writeU8, AMF.AMF3_STRING, pure, Except.pure, bind, Except.bind]

theorem writeU8_foldl_map {α : Type} (f : α → Nat) (is : List α) (buf : List Nat) :
    is.foldl (fun b i => writeU8 (f i) b) buf = buf ++ is.map (fun i => f i % 256) := by
  induction is generalizing buf with
  | nil => simp
  | cons i rest ih =>
    rw [List.foldl_cons, ih]
    simp [writeU8]

theorem writeDouble_append (bigEndian : Bool) (d : Nat) (writeMarker : Bool) (buf : List Nat) :
    writeDouble bigEndian d writeMarker buf =
      buf ++ (if writeMarker then [AMF.AMF3_DOUBLE] else []) ++ writeDouble bigEndian d false [] := by
  unfold writeDouble writeBinaryString
  simp only [writeU8_foldl_map]
  cases writeMarker <;> cases bigEndian <;> cases Double.isNaN d <;>
    simp [writeU8, AMF.AMF3_DOUBLE]

theorem writeDateIf_some (bigEndian : Bool) (t : Nat) (buf : List Nat) :
    writeDateIf bigEndian (some t) buf =
      Except.ok (true, buf ++ ([AMF.AMF3_DATE] ++ u29Wire 1 ++ writeDouble bigEndian t false [])) := by
  simp only [writeDateIf]
  rw [writeU29_ok _ (by decide)]
  simp only [bind, Except.bind, pure, Except.pure, writeMarkerDefault]
  rw [writeDouble_append]
  simp [writeU8, AMF.AMF3_DATE]

/-- The array branch of `writeValue` is `writeArray`. -/
theorem writeValue_array (bigEndian fast : Bool) (elems : List Value) (buf : List Nat) :
    writeValue bigEndian (Value.array fast elems) buf = writeArray bigEndian fast elems buf := by
  simp only [writeValue, writeArray]

/-- On an object without callable `getTime`, `writeValue` is `writeObject`. -/
theorem writeValue_object (bigEndian callable : Bool) (props : List (Property Value))
    (buf : List Nat) :
    writeValue bigEndian (Value.object callable none props) buf =
      writeObject bigEndian props buf := by
  simp only [writeValue, writeObject, writeDateIf, bind, Except.bind]
  rfl

/-- On an object with callable `getTime`, `writeValue` writes what `writeDateIf` writes. -/
theorem writeValue_date (bigEndian callable : Bool) (t : Nat) (props : List (Property Value))
    (buf : List Nat) :
    writeValue bigEndian (Value.object callable (some t) props) buf =
      (writeDateIf bigEndian (some t) buf).map Prod.snd := by
  simp only [writeValue, writeDateIf_some, bind, Except.bind, Except.map]
  rfl

theorem writeNumber_append (bigEndian : Bool) (d : Nat) (writeMarker : Bool) :
    ∃ out, ∀ buf, writeNumber bigEndian d writeMarker buf = Except.ok (buf ++ out) := by
  unfold writeNumber
  by_cases hc : (Double.eqInt64 (Double.toInt64 d) d && decide (0 ≤ Double.toInt64 d)
      && decide (Double.toInt64 d < 0x2000000)) = true
  · have h0 : 0 ≤ Double.toInt64 d := by
      simp only [Bool.and_eq_true, decide_eq_true_eq] at hc
      exact hc.1.2
    refine ⟨(if writeMarker then [AMF.AMF3_INTEGER] else []) ++ u29Wire (Double.toInt64 d).toNat, ?_⟩
    intro buf
    simp only [hc, if_true]
    rw [writeU29_ok _ h0]
    simp
  · refine ⟨(if writeMarker then [AMF.AMF3_DOUBLE] else []) ++ writeDouble bigEndian d false [], ?_⟩
    intro buf
    simp only [hc]
    rw [writeDouble_append]
    simp

mutual

theorem writeValue_fits (bigEndian : Bool) :
    ∀ v : Value, v.fits = true →
      ∃ out, ∀ buf, writeValue bigEndian v buf = Except.ok (buf ++ out)
  | Value.undefined, _ => ⟨[AMF.AMF3_UNDEFINED], fun buf => by
      simp [writeValue, writeUndefined, writeU8, AMF.AMF3_UNDEFINED]⟩
  | Value.null, _ => ⟨[AMF.AMF3_NULL], fun buf => by
      simp [writeValue, writeNull, writeU8, AMF.AMF3_NULL]⟩
  | Value.string s, h => by
      simp only [Value.fits, decide_eq_true_eq] at h
      refine ⟨[AMF.AMF3_STRING] ++ u29Wire (((utf8Bytes s).length <<< 1) ||| 1) ++ utf8Bytes s, ?_⟩
      intro buf
      simp only [writeValue]
      rw [writeUTF8_ok s h]
      simp
  | Value.number d, _ => by
      obtain ⟨out, hout⟩ := writeNumber_append bigEndian d true
      exact ⟨out, fun buf => by simp only [writeValue]; exact hout buf⟩
  | Value.boolean b, _ => ⟨[(if b then AMF.AMF3_TRUE else AMF.AMF3_FALSE) % 256], fun buf => by
      simp [writeValue, writeBool, writeU8]⟩
  | Value.array fast elems, h => by
      simp only [Value.fits, Bool.and_eq_true, decide_eq_true_eq] at h
      obtain ⟨out, hout⟩ := writeElements_fits bigEndian fast (int32OfBits elems.length).toNat elems h.2
      refine ⟨[AMF.AMF3_ARRAY] ++ u29Wire ((elems.length <<< 1) ||| 1) ++ u29Wire 1 ++ out, ?_⟩
      intro buf
      simp only [writeValue]
      rw [lengthFlag_small _ h.1, writeU29_ok _ (Int.natCast_nonneg _)]
      simp only [bind, Except.bind]
      rw [writeUTF8_ok "" (by decide)]
      simp only [hout]
      have hE : utf8Bytes "" = [] := by decide
      rw [hE]
      simp [writeU8, AMF.AMF3_ARRAY, writeMarkerDefault]
  | Value.object _ (some t) _, _ => by
      refine ⟨[AMF.AMF3_DATE] ++ u29Wire 1 ++ writeDouble bigEndian t false [], ?_⟩
      intro buf
      rw [writeValue_date, writeDateIf_some]
      rfl
  | Value.object _ none props, h => by
      simp only [Value.fits] at h
      obtain ⟨out, hout⟩ := writeProperties_fits bigEndian props h
      refine ⟨[AMF.AMF3_OBJECT] ++ u29Wire 11 ++ (u29Wire 13 ++ utf8Bytes "Object") ++ out ++ u29Wire 1, ?_⟩
      intro buf
      rw [writeValue_object]
      simp only [writeObject]
      rw [writeU29_ok _ (by decide)]
      simp only [bind, Except.bind]
      rw [writeUTF8_ok "Object" (by decide)]
      simp only [hout]
      rw [writeUTF8_ok "" (by decide)]
      have hO : ((utf8Bytes "Object").length <<< 1) ||| 1 = 13 := by decide
      have hE : utf8Bytes "" = [] := by decide
      rw [hO, hE]
      simp [writeU8, AMF.AMF3_OBJECT, writeMarkerDefault, INSTANCE_NO_TRAITS_NO_EXTERNALIZABLE]
  | Value.other, _ => ⟨[], fun buf => by simp [writeValue]⟩

theorem writeElements_fits (bigEndian : Bool) (fast : Bool) :
    ∀ (count : Nat) (elems : List Value), fitsElements elems = true →
      ∃ out, ∀ buf, writeElements bigEndian fast count elems buf = Except.ok (buf ++ out)
  | 0, _, _ => ⟨[], fun buf => by simp [writeElements]⟩
  | _ + 1, [], _ => ⟨[], fun buf => by simp [writeElements]⟩
  | count + 1, e :: rest, h => by
      simp only [fitsElements, Bool.and_eq_true] at h
      obtain ⟨o1, h1⟩ := writeValue_fits bigEndian e h.1
      obtain ⟨o2, h2⟩ := writeElements_fits bigEndian fast count rest h.2
      by_cases hc : (fast && e.IsObject) = true
      · refine ⟨o1 ++ o2, fun buf => ?_⟩
        simp only [writeElements, hc, if_true, h1, bind, Except.bind, h2]
        simp
      · refine ⟨[AMF.AMF3_UNDEFINED] ++ o2, fun buf => ?_⟩
        simp only [writeElements, hc, bind, Except.bind, h2]
        simp [writeUndefined, writeU8, AMF.AMF3_UNDEFINED]

theorem writeProperties_fits (bigEndian : Bool) :
    ∀ props : List (Property Value), fitsProperties props = true →
      ∃ out, ∀ buf, writeProperties bigEndian props buf = Except.ok (buf ++ out)
  | [], _ => ⟨[], fun buf => by simp [writeProperties]⟩
  | p :: rest, h => by
      simp only [fitsProperties, Bool.and_eq_true, decide_eq_true_eq] at h
      obtain ⟨o1, h1⟩ := writeValue_fits bigEndian p.value h.1.2
      obtain ⟨o2, h2⟩ := writeProperties_fits bigEndian rest h.2
      by_cases hr : p.real = true
      · by_cases hf : p.value.IsFunction = true
        · exact ⟨o2, fun buf => by simp only [writeProperties, hr, hf]; simpa using h2 buf⟩
        · refine ⟨u29Wire (((utf8Bytes p.name).length <<< 1) ||| 1) ++ utf8Bytes p.name ++ o1 ++ o2,
            fun buf => ?_⟩
          simp only [writeProperties, hr, hf]
          rw [writeUTF8_ok p.name h.1.1]
          simp [bind, Except.bind, h1, h2, writeMarkerDefault]
      · exact ⟨o2, fun buf => by simp only [writeProperties, hr]; simpa using h2 buf⟩

end

theorem writeProperties_written (bigEndian : Bool) :
    ∀ props : List (Property Value), fitsProperties props = true →
      (∀ buf, writeProperties bigEndian props buf =
        Except.ok (buf ++ (props.filter Property.written).flatMap
          (fun p => keyBytes p.name ++ encodedBytes bigEndian p.value))) ∧
      (∀ p ∈ props.filter Property.written,
        writeUTF8 p.name false [] = Except.ok (keyBytes p.name) ∧
        writeValue bigEndian p.value [] = Except.ok (encodedBytes bigEndian p.value))
  | [], _ => ⟨fun buf => by simp [writeProperties], fun p hp => by simp at hp⟩
  | p :: rest, h => by
      simp only [fitsProperties, Bool.and_eq_true, decide_eq_true_eq] at h
      obtain ⟨ih1, ih2⟩ := writeProperties_written bigEndian rest h.2
      obtain ⟨o1, h1⟩ := writeValue_fits bigEndian p.value h.1.2
      have hk : writeUTF8 p.name false [] = Except.ok (keyBytes p.name) := by
        simp only [keyBytes]
        rw [writeUTF8_ok p.name h.1.1]
      have hv : writeValue bigEndian p.value [] = Except.ok (encodedBytes bigEndian p.value) := by
        simp only [encodedBytes]
        rw [h1 []]
      have hk2 : keyBytes p.name =
          u29Wire (((utf8Bytes p.name).length <<< 1) ||| 1) ++ utf8Bytes p.name := by
        simp only [keyBytes]
        rw [writeUTF8_ok p.name h.1.1]
        simp
      have hv2 : encodedBytes bigEndian p.value = o1 := by
        simp only [encodedBytes]
        rw [h1 []]
        simp
      by_cases hw : p.written = true
      · have hr : p.real = true := by
          simp only [Property.written, Bool.and_eq_true] at hw
          exact hw.1
        have hf : p.value.IsFunction = false := by
          simp only [Property.written, Bool.and_eq_true, Bool.not_eq_true'] at hw
          exact hw.2
        refine ⟨fun buf => ?_, fun q hq => ?_⟩
        · simp only [writeProperties, hr, hf]
          rw [writeUTF8_ok p.name h.1.1]
          simp [bind, Except.bind, h1, ih1, writeMarkerDefault, List.filter_cons, hw, hk2, hv2]
        · simp only [List.filter_cons, hw, if_true, List.mem_cons] at hq
          rcases hq with rfl | hq
          · exact ⟨hk, hv⟩
          · exact ih2 q hq
      · refine ⟨fun buf => ?_, fun q hq => ?_⟩
        · have hskip : writeProperties bigEndian (p :: rest) buf =
              writeProperties bigEndian rest buf := by
            simp only [Property.written, Bool.and_eq_true, Bool.not_eq_true', not_and,
              Bool.not_eq_false] at hw
            by_cases hr : p.real = true
            · simp [writeProperties, hr, hw hr]
            · simp [writeProperties, hr]
          rw [hskip, ih1 buf]
          simp [List.filter_cons, hw]
        · simp only [List.filter_cons, hw] at hq
          exact ih2 q (by simpa using hq)

theorem writeProperties_skip_functions (bigEndian : Bool) :
    ∀ (props : List (Property Value)) (buf : List Nat),
      writeProperties bigEndian props buf =
        writeProperties bigEndian (props.filter (fun p => !p.value.IsFunction)) buf
  | [], _ => by simp
  | p :: rest, buf => by
      by_cases hf : p.value.IsFunction = true
      · have h1 : writeProperties bigEndian (p :: rest) buf =
            writeProperties bigEndian rest buf := by
          by_cases hr : p.real = true
          · simp [writeProperties, hr, hf]
          · simp [writeProperties, hr]
        rw [h1, writeProperties_skip_functions bigEndian rest buf]
        simp [List.filter_cons, hf]
      · have hf2 : p.value.IsFunction = false := by simpa using hf
        simp only [List.filter_cons, hf2, Bool.not_false, if_true]
        by_cases hr : p.real = true
        · simp only [writeProperties, hr, hf2, Bool.not_true, Bool.false_eq_true, if_false]
          congr 1
          funext b1
          congr 1
          funext b2
          exact writeProperties_skip_functions bigEndian rest b2
        · simp only [writeProperties, hr]
          simpa using writeProperties_skip_functions bigEndian rest buf

/-! ## The integer test of writeNumber -/

theorem Double.finite_of_flags (b : Nat) (h1 : Double.isNaN b = false)
    (h2 : Double.isInf b = false) : Double.isFinite b := by
  intro he
  simp only [Double.isNaN, Double.isInf, he, beq_self_eq_true, Bool.true_and] at h1 h2
  cases hf : (Double.frac b == 0) <;> simp_all

theorem Double.flags_of_finite (b : Nat) (h : Double.isFinite b) :
    Double.isNaN b = false ∧ Double.isInf b = false := by
  have h' : (Double.expo b == 2047) = false := by simpa using h
  simp [Double.isNaN, Double.isInf, h']

theorem scaled_eq_intCast_ge (S : ℤ) (m j : ℕ) (z : ℤ) :
    (S : ℚ) * (m : ℚ) * (2 : ℚ) ^ (1075 + j) / (2 : ℚ) ^ 1075 = (z : ℚ) ↔ z = S * (m : ℤ) * 2 ^ j := by
  have h2 : ((2 : ℚ) ^ 1075) ≠ 0 := pow_ne_zero _ (by norm_num)
  have e1 : (S : ℚ) * (m : ℚ) * (2 : ℚ) ^ (1075 + j) / (2 : ℚ) ^ 1075 =
      ((S * (m : ℤ) * 2 ^ j : ℤ) : ℚ) := by
    push_cast
    rw [pow_add]
    field_simp
    ring
  rw [e1]
  constructor
  · intro h
    exact (Int.cast_injective h).symm
  · intro h
    rw [h]

theorem scaled_eq_intCast_lt (S : ℤ) (m e j : ℕ) (z : ℤ) (hj : 1075 = e + j) :
    (S : ℚ) * (m : ℚ) * (2 : ℚ) ^ e / (2 : ℚ) ^ 1075 = (z : ℚ) ↔ z * 2 ^ j = S * (m : ℤ) := by
  have h2 : ((2 : ℚ) ^ e) ≠ 0 := pow_ne_zero _ (by norm_num)
  have h3 : ((2 : ℚ) ^ j) ≠ 0 := pow_ne_zero _ (by norm_num)
  rw [hj, pow_add, div_eq_iff (mul_ne_zero h2 h3)]
  constructor
  · intro hv
    have h5 : ((z * 2 ^ j : ℤ) : ℚ) * 2 ^ e = ((S * (m : ℤ) : ℤ) : ℚ) * 2 ^ e := by
      push_cast
      rw [hv]
      ring
    exact Int.cast_injective (mul_right_cancel₀ h2 h5)
  · intro hz
    have h5 : ((S * (m : ℤ) : ℤ) : ℚ) = ((z * 2 ^ j : ℤ) : ℚ) := by rw [hz]
    push_cast at h5
    rw [h5]
    ring

theorem Double.value_eq_intCast (b : Nat) (z : ℤ) :
    Double.value b = (z : ℚ) ↔
      (if 1075 ≤ Double.scale b then
        z = (if Double.sign b = 1 then -1 else 1) * (Double.significand b : Int) *
          2 ^ (Double.scale b - 1075)
       else
        z * 2 ^ (1075 - Double.scale b) =
          (if Double.sign b = 1 then -1 else 1) * (Double.significand b : Int)) := by
  have hs : ((if Double.sign b = 1 then -1 else 1 : ℚ)) =
      (((if Double.sign b = 1 then -1 else 1 : ℤ)) : ℚ) := by
    split <;> simp
  unfold Double.value
  rw [hs]
  by_cases h : 1075 ≤ Double.scale b
  · rw [if_pos h]
    obtain ⟨j, hj⟩ := Nat.exists_eq_add_of_le h
    rw [hj, Nat.add_sub_cancel_left]
    exact scaled_eq_intCast_ge _ _ j z
  · rw [if_neg h]
    obtain ⟨j, hj⟩ := Nat.exists_eq_add_of_le (Nat.le_of_lt (Nat.lt_of_not_le h))
    have hj' : 1075 - Double.scale b = j := by omega
    rw [hj']
    exact scaled_eq_intCast_lt _ _ _ j z hj

theorem Double.ofInt64_small (v : Int) (h0 : 0 ≤ v) (h1 : v < 0x2000000) :
    Double.ofInt64 v = v := by
  unfold Double.ofInt64
  have : v.natAbs < 2 ^ 53 := by omega
  simp only [this, if_true]

theorem Double.toInt64_of_value (b : Nat) (z : ℤ) (hf : Double.isFinite b)
    (hv : Double.value b = (z : ℚ)) (h0 : 0 ≤ z) (h1 : z < 2 ^ 25) :
    Double.toInt64 b = z := by
  obtain ⟨hn, hi⟩ := Double.flags_of_finite b hf
  have hz := (Double.value_eq_intCast b z).mp hv
  have key : (if Double.sign b = 1 then -(Double.truncMagnitude b : Int)
      else (Double.truncMagnitude b : Int)) = z := by
    unfold Double.truncMagnitude
    by_cases h : 1075 ≤ Double.scale b
    · rw [if_pos h] at hz ⊢
      by_cases hs : Double.sign b = 1
      · rw [if_pos hs] at hz ⊢
        rw [hz]
        push_cast
        ring
      · rw [if_neg hs] at hz ⊢
        rw [hz]
        push_cast
        ring
    · rw [if_neg h] at hz ⊢
      have hp : (0 : ℤ) < 2 ^ (1075 - Double.scale b) := by positivity
      by_cases hs : Double.sign b = 1
      · rw [if_pos hs] at hz ⊢
        have hm : (0 : ℤ) ≤ (Double.significand b : ℤ) := Int.natCast_nonneg _
        have hprod : 0 ≤ z * 2 ^ (1075 - Double.scale b) := mul_nonneg h0 hp.le
        have hm0 : (Double.significand b : ℤ) = 0 := by linarith
        have hm0' : Double.significand b = 0 := by exact_mod_cast hm0
        have hz0 : z * 2 ^ (1075 - Double.scale b) = 0 := by rw [hz, hm0]; ring
        have hz1 : z = 0 := by
          rcases mul_eq_zero.mp hz0 with h | h
          · exact h
          · exact absurd h hp.ne'
        rw [hm0', hz1]
        simp
      · rw [if_neg hs] at hz ⊢
        rw [one_mul] at hz
        obtain ⟨n, rfl⟩ := Int.eq_ofNat_of_zero_le h0
        have hm : Double.significand b = n * 2 ^ (1075 - Double.scale b) := by
          exact_mod_cast hz.symm
        rw [hm, Nat.mul_div_cancel _ (by positivity)]
  unfold Double.toInt64
  rw [hn, hi]
  simp only [Bool.false_eq_true, if_false, key]
  rw [if_pos]
  constructor <;> omega

theorem writeNumber_test_iff (d : Nat) :
    (Double.eqInt64 (Double.toInt64 d) d && decide (0 ≤ Double.toInt64 d) &&
        decide (Double.toInt64 d < 0x2000000)) = true ↔ compactRule d := by
  constructor
  · intro hc
    simp only [Bool.and_eq_true, decide_eq_true_eq] at hc
    obtain ⟨⟨he, h0⟩, h1⟩ := hc
    unfold Double.eqInt64 at he
    rw [Double.ofInt64_small _ h0 h1] at he
    simp only [Bool.and_eq_true, Bool.not_eq_true'] at he
    obtain ⟨⟨hn, hi⟩, hcmp⟩ := he
    have hv : Double.value d = ((Double.toInt64 d : ℤ) : ℚ) := by
      rw [Double.value_eq_intCast]
      by_cases h : 1075 ≤ Double.scale d
      · rw [if_pos h] at hcmp ⊢
        simpa using hcmp
      · rw [if_neg h] at hcmp ⊢
        simpa using hcmp
    refine ⟨Double.finite_of_flags d hn hi, ⟨_, hv⟩, ?_, ?_⟩
    · rw [hv]
      exact_mod_cast h0
    · rw [hv]
      have : Double.toInt64 d < 2 ^ 25 := by norm_num; exact h1
      exact_mod_cast this
  · rintro ⟨hf, ⟨z, hv⟩, h0, h1⟩
    rw [hv] at h0 h1
    have h0z : 0 ≤ z := by exact_mod_cast h0
    have h1z : z < 2 ^ 25 := by exact_mod_cast h1
    have ht := Double.toInt64_of_value d z hf hv h0z h1z
    obtain ⟨hn, hi⟩ := Double.flags_of_finite d hf
    have h1z' : z < 0x2000000 := by norm_num at h1z ⊢; exact h1z
    rw [ht]
    simp only [Bool.and_eq_true, decide_eq_true_eq]
    refine ⟨⟨?_, h0z⟩, h1z'⟩
    unfold Double.eqInt64
    rw [Double.ofInt64_small _ h0z h1z', hn, hi]
    have hz := (Double.value_eq_intCast d z).mp hv
    by_cases h : 1075 ≤ Double.scale d
    · rw [if_pos h] at hz
      simp [h, hz]
    · rw [if_neg h] at hz
      simp [h, hz]

/-! ## The claims -/

/-- C1 (defect of the code): the number 2097152 = 2^21 lies in [0, 2^25) and is
written in the integer form, as marker 0x04 and the bytes 81 80 80 00; a
conforming AMF3 U29 reader, whose fourth byte carries eight bits, reads these
bytes as 4194304, not as 2097152. -/
theorem C1_encode_2097152_misread :
    Double.value 0x4140000000000000 = 2097152 ∧
    (∀ bigEndian, encode bigEndian (Value.number 0x4140000000000000) =
      Except.ok [0x04, 0x81, 0x80, 0x80, 0x00]) ∧
    readU29 [0x81, 0x80, 0x80, 0x00] = some (4194304, []) := by
  refine ⟨?_, fun bigEndian => ?_, by decide⟩
  · norm_num [Double.value, Double.sign, Double.significand, Double.scale, Double.expo,
      Double.frac]
  · cases bigEndian <;> rfl

/-- C2: the Number Encoding Rule. writeNumber emits the integer form (the
Integer marker and the bytes writeU29 emits for the number) exactly when the
number is integral and lies in [0, 2^25); every other number, NaN and the
infinities included, is emitted in the double form, Double marker first. -/
theorem C2_number_encoding_rule (bigEndian : Bool) (d : Nat) (buf : List Nat) :
    (compactRule d ↔
      ∃ n : Nat, Double.value d = (n : ℚ) ∧ n < 2 ^ 25 ∧
        writeU29 (n : Int) false [] = Except.ok (u29Wire n) ∧
        writeNumber bigEndian d true buf =
          Except.ok (buf ++ AMF.AMF3_INTEGER :: u29Wire n)) ∧
    (¬ compactRule d ↔
      writeNumber bigEndian d true buf =
        Except.ok (buf ++ AMF.AMF3_DOUBLE :: writeDouble bigEndian d false [])) := by
  have hint : compactRule d →
      ∃ n : Nat, Double.value d = (n : ℚ) ∧ n < 2 ^ 25 ∧
        writeU29 (n : Int) false [] = Except.ok (u29Wire n) ∧
        writeNumber bigEndian d true buf =
          Except.ok (buf ++ AMF.AMF3_INTEGER :: u29Wire n) := by
    intro hr
    have hc := (writeNumber_test_iff d).mpr hr
    obtain ⟨hf, ⟨z, hv⟩, h0, h1⟩ := hr
    rw [hv] at h0 h1
    have h0z : 0 ≤ z := by exact_mod_cast h0
    have h1z : z < 2 ^ 25 := by exact_mod_cast h1
    have ht := Double.toInt64_of_value d z hf hv h0z h1z
    obtain ⟨n, rfl⟩ := Int.eq_ofNat_of_zero_le h0z
    refine ⟨n, by simpa using hv, by exact_mod_cast h1z, ?_, ?_⟩
    · rw [writeU29_ok _ (Int.natCast_nonneg _)]
      simp
    · unfold writeNumber
      simp only [hc, if_true]
      rw [ht, writeU29_ok _ (Int.natCast_nonneg _)]
      simp
  have hdbl : ¬ compactRule d →
      writeNumber bigEndian d true buf =
        Except.ok (buf ++ AMF.AMF3_DOUBLE :: writeDouble bigEndian d false []) := by
    intro hr
    have hc : ¬ ((Double.eqInt64 (Double.toInt64 d) d && decide (0 ≤ Double.toInt64 d) &&
        decide (Double.toInt64 d < 0x2000000)) = true) := fun h => hr ((writeNumber_test_iff d).mp h)
    unfold writeNumber
    simp only [hc]
    rw [writeDouble_append]
    simp
  refine ⟨⟨hint, ?_⟩, ⟨hdbl, ?_⟩⟩
  · rintro ⟨n, _, _, _, hw⟩
    by_contra hr
    rw [hdbl hr] at hw
    injection hw with hl
    have := List.append_cancel_left hl
    simp [AMF.AMF3_DOUBLE, AMF.AMF3_INTEGER] at this
  · intro hw hr
    obtain ⟨n, _, _, _, hw2⟩ := hint hr
    rw [hw] at hw2
    injection hw2 with hl
    have := List.append_cancel_left hl
    simp [AMF.AMF3_DOUBLE, AMF.AMF3_INTEGER] at this

/-- C3 (defect of the code): with the endianness flag set, encode(-1) is the
Double marker followed by seven payload bytes only, eight bytes in all instead
of nine. -/
theorem C3_encode_minus_one_big_endian :
    Double.value 0xBFF0000000000000 = -1 ∧
    encode true (Value.number 0xBFF0000000000000) =
      Except.ok [0x05, 0xBF, 0xF0, 0x00, 0x00, 0x00, 0x00, 0x00] ∧
    encode false (Value.number 0xBFF0000000000000) =
      Except.ok [0x05, 0xBF, 0xF0, 0x00, 0x00, 0x00, 0x00, 0x00, 0x00] := by
  refine ⟨?_, rfl, rfl⟩
  norm_num [Double.value, Double.sign, Double.significand, Double.scale, Double.expo,
    Double.frac]

/-- C4 (defect of the code): with the endianness flag set and the storage bytes
of 1.0 in big-endian order (3F F0 00 00 00 00 00 00), writeDouble without marker
appends the first seven of them only. -/
theorem C4_writeDouble_big_endian_seven_bytes :
    Double.value 0x3FF0000000000000 = 1 ∧
    Double.storage true 0x3FF0000000000000 = [0x3F, 0xF0, 0x00, 0x00, 0x00, 0x00, 0x00, 0x00] ∧
    writeDouble true 0x3FF0000000000000 false [] = [0x3F, 0xF0, 0x00, 0x00, 0x00, 0x00, 0x00] ∧
    (writeDouble true 0x3FF0000000000000 false []).length = 7 := by
  refine ⟨?_, by decide, by decide, by decide⟩
  norm_num [Double.value, Double.sign, Double.significand, Double.scale, Double.expo,
    Double.frac]

/-- C5 (defect of the code): encode(NaN) is ten bytes, the Double marker and
nine payload bytes: the eight bytes of SERIALIZED_NaN and the NUL that ends the
string literal, which sizeof counts. -/
theorem C5_encode_nan_ten_bytes :
    Double.isNaN 0x7FF8000000000000 = true ∧
    (∀ bigEndian, encode bigEndian (Value.number 0x7FF8000000000000) =
      Except.ok [0x05, 0x00, 0x00, 0x00, 0x00, 0x00, 0x00, 0xF8, 0x7F, 0x00]) ∧
    (∀ bigEndian, (writeDouble bigEndian 0x7FF8000000000000 false []).length = 9) := by
  refine ⟨by decide, fun bigEndian => ?_, fun bigEndian => ?_⟩
  · cases bigEndian <;> rfl
  · cases bigEndian <;> decide

/-- C6 (defect of the code): buffer_ is cleared by the constructor only, so the
second of two serialize(true) calls on one instance returns 03 03, the bytes of
both calls, where the first returned 03. -/
theorem C6_second_serialize_returns_both :
    ∀ bigEndian, ∃ s1 s2,
      Serialize bigEndian Serializer.new [Value.boolean true] = Except.ok ([0x03], s1) ∧
      Serialize bigEndian s1 [Value.boolean true] = Except.ok ([0x03, 0x03], s2) := by
  intro bigEndian
  exact ⟨State.mk [0x03], State.mk [0x03, 0x03], rfl, rfl⟩

/-- C7 (the claim fails): encode({}) is not 0A 0B 01 01; the class name written
is "Object", giving 0A 0B 0D 4F 62 6A 65 63 74 01. -/
theorem C7_empty_object_not_anonymous :
    encode false (Value.object false none []) =
      Except.ok [0x0A, 0x0B, 0x0D, 0x4F, 0x62, 0x6A, 0x65, 0x63, 0x74, 0x01] ∧
    encode false (Value.object false none []) ≠ Except.ok [0x0A, 0x0B, 0x01, 0x01] := by
  have h : encode false (Value.object false none []) =
      Except.ok [0x0A, 0x0B, 0x0D, 0x4F, 0x62, 0x6A, 0x65, 0x63, 0x74, 0x01] := rfl
  refine ⟨h, ?_⟩
  rw [h]
  intro hne
  injection hne with hl
  revert hl
  decide

/-- C7 (amended): for every plain object (not an array, no callable getTime)
whose strings and arrays are shorter than 2^30, encode(obj) begins with the
Object marker 0x0A, the trait header 0x0B and the class-name string "Object"
written without marker (0x0D and the six bytes 4F 62 6A 65 63 74); encode({}) is
exactly 0A 0B 0D 4F 62 6A 65 63 74 01. -/
theorem C7_object_header (bigEndian callable : Bool) (props : List (Property Value))
    (h : (Value.object callable none props).fits = true) :
    (∃ rest, encode bigEndian (Value.object callable none props) =
      Except.ok ([AMF.AMF3_OBJECT, 0x0B, 0x0D] ++ utf8Bytes "Object" ++ rest)) ∧
    encode bigEndian (Value.object callable none []) =
      Except.ok [0x0A, 0x0B, 0x0D, 0x4F, 0x62, 0x6A, 0x65, 0x63, 0x74, 0x01] := by
  constructor
  · simp only [Value.fits] at h
    obtain ⟨out, hout⟩ := writeProperties_fits bigEndian props h
    refine ⟨out ++ [0x01], ?_⟩
    simp only [encode, Serialize, Serializer.new, clear, writeValue_object, writeObject]
    rw [writeU29_ok _ (by decide)]
    simp only [bind, Except.bind]
    rw [writeUTF8_ok "Object" (by decide)]
    simp only [hout]
    rw [writeUTF8_ok "" (by decide)]
    have hO : ((utf8Bytes "Object").length <<< 1) ||| 1 = 13 := by decide
    have hE : utf8Bytes "" = [] := by decide
    have h11 : u29Wire 11 = [0x0B] := by decide
    have h13 : u29Wire 13 = [0x0D] := by decide
    have h1 : u29Wire 1 = [0x01] := by decide
    rw [hO, hE]
    simp [writeU8, AMF.AMF3_OBJECT, writeMarkerDefault, INSTANCE_NO_TRAITS_NO_EXTERNALIZABLE,
      h11, h13, h1, Except.map, pure, Except.pure]
  · cases bigEndian <;> cases callable <;> rfl

/-- The header theorem of C7 at the object with properties a = 1 and b = "x". -/
theorem C7_object_header_witness :
    (Value.object false none
        [Property.mk "a" true (Value.number 0x3FF0000000000000),
         Property.mk "b" true (Value.string "x")]).fits = true ∧
    ((∃ rest, encode false (Value.object false none
        [Property.mk "a" true (Value.number 0x3FF0000000000000),
         Property.mk "b" true (Value.string "x")]) =
      Except.ok ([AMF.AMF3_OBJECT, 0x0B, 0x0D] ++ utf8Bytes "Object" ++ rest)) ∧
    encode false (Value.object false none []) =
      Except.ok [0x0A, 0x0B, 0x0D, 0x4F, 0x62, 0x6A, 0x65, 0x63, 0x74, 0x01]) :=
  ⟨by decide, C7_object_header false false _ (by decide)⟩

/-- An array of 2^30 elements makes `writeValue` abort: its length header
`(len << 1) | 1` wraps to a negative `int`, which `writeU29` refuses. -/
theorem writeValue_array_overflow (bigEndian fast : Bool) (elems : List Value)
    (h : elems.length = 2 ^ 30) (buf : List Nat) :
    writeValue bigEndian (Value.array fast elems) buf =
      Except.error "U29 range error - negative number" := by
  have hflag : lengthFlag (2 ^ 30) = -2147483647 := by decide
  rw [writeValue_array]
  simp only [writeArray]
  rw [h, hflag]
  rfl

/-- An object with one written property whose value makes `writeValue` abort is
not encoded: the abort of the value is the result of `encode`. -/
theorem encode_object_single_abort (bigEndian callable : Bool) (name : String) (v : Value)
    (msg : String) (hname : (utf8Bytes name).length < 2 ^ 30) (hf : v.IsFunction = false)
    (hv : ∀ buf, writeValue bigEndian v buf = Except.error msg) :
    encode bigEndian (Value.object callable none [Property.mk name true v]) =
      Except.error msg := by
  simp only [encode, Serialize, Serializer.new, clear, writeValue_object, writeObject]
  rw [writeU29_ok _ (by decide)]
  simp only [bind, Except.bind]
  rw [writeUTF8_ok "Object" (by decide)]
  simp only [writeProperties, Bool.not_true, Bool.false_eq_true, if_false, hf, bind, Except.bind]
  rw [writeUTF8_ok name hname]
  simp only [hv, Except.map]

/-- C8 (the claim fails): the plain object whose one property a holds an array of
2^30 elements is not encoded at all; encode aborts with the range error of
writeU29, so there are no bytes after the header. -/
theorem C8_object_with_long_array_aborts :
    (List.replicate (2 ^ 30) Value.undefined).length = 2 ^ 30 ∧
    encode false (Value.object false none
        [Property.mk "a" true (Value.array false (List.replicate (2 ^ 30) Value.undefined))]) =
      Except.error "U29 range error - negative number" ∧
    ∀ out, encode false (Value.object false none
        [Property.mk "a" true (Value.array false (List.replicate (2 ^ 30) Value.undefined))]) ≠
      Except.ok out := by
  have he : encode false (Value.object false none
        [Property.mk "a" true (Value.array false (List.replicate (2 ^ 30) Value.undefined))]) =
      Except.error "U29 range error - negative number" :=
    encode_object_single_abort false false "a" _ _ (by decide) rfl
      (writeValue_array_overflow false false _ (List.length_replicate _ _))
  refine ⟨List.length_replicate _ _, he, fun out hout => ?_⟩
  rw [he] at hout
  cases hout

/-- C8 (amended): for every plain object whose strings (property names included)
and arrays are shorter than 2^30, the bytes after the object header are, for
each real property whose value is no function,
in enumeration order, the key as a string without marker followed by the
encoding of the value, and then the single byte 0x01 of the empty key; each of
those keys and values is encoded without abort; function-valued properties
contribute nothing, so the object is encoded as it is without them. -/
theorem C8_object_properties (bigEndian callable : Bool) (props : List (Property Value))
    (h : (Value.object callable none props).fits = true) :
    encode bigEndian (Value.object callable none props) =
      Except.ok ([0x0A, 0x0B, 0x0D, 0x4F, 0x62, 0x6A, 0x65, 0x63, 0x74] ++
        (props.filter Property.written).flatMap
          (fun p => keyBytes p.name ++ encodedBytes bigEndian p.value) ++ [0x01]) ∧
    (∀ p ∈ props.filter Property.written,
      writeUTF8 p.name false [] = Except.ok (keyBytes p.name) ∧
      writeValue bigEndian p.value [] = Except.ok (encodedBytes bigEndian p.value)) ∧
    encode bigEndian (Value.object callable none props) =
      encode bigEndian (Value.object callable none
        (props.filter (fun p => !p.value.IsFunction))) := by
  simp only [Value.fits] at h
  obtain ⟨hw1, hw2⟩ := writeProperties_written bigEndian props h
  refine ⟨?_, hw2, ?_⟩
  · simp only [encode, Serialize, Serializer.new, clear, writeValue_object, writeObject]
    rw [writeU29_ok _ (by decide)]
    simp only [bind, Except.bind]
    rw [writeUTF8_ok "Object" (by decide)]
    simp only [hw1]
    rw [writeUTF8_ok "" (by decide)]
    have hO : ((utf8Bytes "Object").length <<< 1) ||| 1 = 13 := by decide
    have hE : utf8Bytes "" = [] := by decide
    have hB : utf8Bytes "Object" = [0x4F, 0x62, 0x6A, 0x65, 0x63, 0x74] := by decide
    have h11 : u29Wire 11 = [0x0B] := by decide
    have h13 : u29Wire 13 = [0x0D] := by decide
    have h1 : u29Wire 1 = [0x01] := by decide
    rw [hO, hE, hB]
    simp [writeU8, AMF.AMF3_OBJECT, writeMarkerDefault, INSTANCE_NO_TRAITS_NO_EXTERNALIZABLE,
      h11, h13, h1, Except.map, pure, Except.pure]
  · simp only [encode, Serialize, Serializer.new, clear, writeValue_object, writeObject]
    rw [writeU29_ok _ (by decide)]
    simp only [bind, Except.bind]
    rw [writeUTF8_ok "Object" (by decide)]
    simp only [writeProperties_skip_functions bigEndian props]

/-- The property theorem of C8 at an object with properties a = 1, f = a function and
b = "x". -/
theorem C8_object_properties_witness :
    (Value.object false none
        [Property.mk "a" true (Value.number 0x3FF0000000000000),
         Property.mk "f" true (Value.object true none []),
         Property.mk "b" true (Value.string "x")]).fits = true ∧
    (encode false (Value.object false none
        [Property.mk "a" true (Value.number 0x3FF0000000000000),
         Property.mk "f" true (Value.object true none []),
         Property.mk "b" true (Value.string "x")]) =
      Except.ok ([0x0A, 0x0B, 0x0D, 0x4F, 0x62, 0x6A, 0x65, 0x63, 0x74] ++
        ([Property.mk "a" true (Value.number 0x3FF0000000000000),
          Property.mk "f" true (Value.object true none []),
          Property.mk "b" true (Value.string "x")].filter Property.written).flatMap
          (fun p => keyBytes p.name ++ encodedBytes false p.value) ++ [0x01]) ∧
    (∀ p ∈ [Property.mk "a" true (Value.number 0x3FF0000000000000),
          Property.mk "f" true (Value.object true none []),
          Property.mk "b" true (Value.string "x")].filter Property.written,
      writeUTF8 p.name false [] = Except.ok (keyBytes p.name) ∧
      writeValue false p.value [] = Except.ok (encodedBytes false p.value)) ∧
    encode false (Value.object false none
        [Property.mk "a" true (Value.number 0x3FF0000000000000),
         Property.mk "f" true (Value.object true none []),
         Property.mk "b" true (Value.string "x")]) =
      encode false (Value.object false none
        ([Property.mk "a" true (Value.number 0x3FF0000000000000),
          Property.mk "f" true (Value.object true none []),
          Property.mk "b" true (Value.string "x")].filter (fun p => !p.value.IsFunction)))) :=
  ⟨by decide, C8_object_properties false false _ (by decide)⟩

/-- C9 (defect of the code): encode([1,2]) is 09 05 01 00 00. writeArray hands
value->CloneElementAt(i) to writeValue; that V8 call returns a Local<Object>,
the empty handle for an element that is no object, and writeValue writes the
Undefined marker for it. The header 09 01 01 of encode([]) is as claimed. -/
theorem C9_encode_array_of_numbers :
    Double.value 0x3FF0000000000000 = 1 ∧ Double.value 0x4000000000000000 = 2 ∧
    (∀ bigEndian fast, encode bigEndian
        (Value.array fast [Value.number 0x3FF0000000000000, Value.number 0x4000000000000000]) =
      Except.ok [0x09, 0x05, 0x01, 0x00, 0x00]) ∧
    (∀ bigEndian fast, encode bigEndian (Value.array fast []) =
      Except.ok [0x09, 0x01, 0x01]) := by
  refine ⟨?_, ?_, fun bigEndian fast => ?_, fun bigEndian fast => ?_⟩
  · norm_num [Double.value, Double.sign, Double.significand, Double.scale, Double.expo,
      Double.frac]
  · norm_num [Double.value, Double.sign, Double.significand, Double.scale, Double.expo,
      Double.frac]
  · cases bigEndian <;> cases fast <;> rfl
  · cases bigEndian <;> cases fast <;> rfl

/-- C10: for every string whose UTF-8 form has L < 2^30 bytes (so that
(L << 1) | 1 is a non-negative int), encode(s) is the String marker 0x06, the
bytes writeU29 emits for (L << 1) | 1, and the L UTF-8 bytes unchanged; written
without marker, the same bytes less the leading 0x06 are appended. -/
theorem C10_string_encoding (bigEndian : Bool) (s : String) (buf : List Nat)
    (h : (utf8Bytes s).length < 2 ^ 30) :
    writeU29 ((((utf8Bytes s).length <<< 1) ||| 1 : Nat) : Int) false [] =
      Except.ok (u29Wire (((utf8Bytes s).length <<< 1) ||| 1)) ∧
    encode bigEndian (Value.string s) =
      Except.ok ([0x06] ++ u29Wire (((utf8Bytes s).length <<< 1) ||| 1) ++ utf8Bytes s) ∧
    writeUTF8 s true buf =
      Except.ok (buf ++ [0x06] ++ u29Wire (((utf8Bytes s).length <<< 1) ||| 1) ++ utf8Bytes s) ∧
    writeUTF8 s false buf =
      Except.ok (buf ++ u29Wire (((utf8Bytes s).length <<< 1) ||| 1) ++ utf8Bytes s) := by
  refine ⟨?_, ?_, ?_, ?_⟩
  · rw [writeU29_ok _ (Int.natCast_nonneg _)]
    simp
  · simp only [encode, Serialize, Serializer.new, clear, writeValue]
    rw [writeUTF8_ok s h]
    simp [AMF.AMF3_STRING, Except.map, bind, Except.bind, pure, Except.pure]
  · rw [writeUTF8_ok s h]
    simp [AMF.AMF3_STRING]
  · rw [writeUTF8_ok s h]
    simp

/-- The string theorem of C10 at the string "ab", on the buffer holding 09. -/
theorem C10_string_encoding_witness :
    (utf8Bytes "ab").length < 2 ^ 30 ∧
    (writeU29 ((((utf8Bytes "ab").length <<< 1) ||| 1 : Nat) : Int) false [] =
      Except.ok (u29Wire (((utf8Bytes "ab").length <<< 1) ||| 1)) ∧
    encode false (Value.string "ab") =
      Except.ok ([0x06] ++ u29Wire (((utf8Bytes "ab").length <<< 1) ||| 1) ++ utf8Bytes "ab") ∧
    writeUTF8 "ab" true [0x09] =
      Except.ok ([0x09] ++ [0x06] ++ u29Wire (((utf8Bytes "ab").length <<< 1) ||| 1) ++
        utf8Bytes "ab") ∧
    writeUTF8 "ab" false [0x09] =
      Except.ok ([0x09] ++ u29Wire (((utf8Bytes "ab").length <<< 1) ||| 1) ++ utf8Bytes "ab")) :=
  ⟨by decide, C10_string_encoding false "ab" [0x09] (by decide)⟩

/-- C11 (the claim fails): encode("") is not 06 00; the length header of the
empty string is the byte 0x01. -/
theorem C11_empty_string_not_zero_byte :
    encode false (Value.string "") = Except.ok [0x06, 0x01] ∧
    encode false (Value.string "") ≠ Except.ok [0x06, 0x00] := by
  have h : encode false (Value.string "") = Except.ok [0x06, 0x01] := rfl
  refine ⟨h, ?_⟩
  rw [h]
  intro hne
  injection hne with hl
  revert hl
  decide

/-- C11 (amended): encode("") is exactly two bytes, the String marker 0x06 and
the single length-header byte 0x01, which is (0 << 1) | 1 for the length zero,
with no payload bytes. -/
theorem C11_empty_string (bigEndian : Bool) :
    (utf8Bytes "").length = 0 ∧
    lengthFlag 0 = 1 ∧
    writeU29 1 false [] = Except.ok [0x01] ∧
    encode bigEndian (Value.string "") = Except.ok [0x06, 0x01] := by
  refine ⟨by decide, by decide, rfl, ?_⟩
  cases bigEndian <;> rfl

/-- C12 (defect of the code): a date whose getTime() is NaN is encoded in eleven
bytes (08 01 and the nine bytes written for a NaN), and with the endianness flag
set a date with getTime() == 0 is encoded in nine bytes (08 01 and seven zero
bytes); with the flag clear the latter is the ten bytes 08 01 and eight zeros. -/
theorem C12_date_lengths :
    Double.isNaN 0x7FF8000000000000 = true ∧
    (∀ callable props, encode false (Value.object callable (some 0x7FF8000000000000) props) =
      Except.ok [0x08, 0x01, 0x00, 0x00, 0x00, 0x00, 0x00, 0x00, 0xF8, 0x7F, 0x00]) ∧
    (∀ callable props, encode true (Value.object callable (some 0) props) =
      Except.ok [0x08, 0x01, 0x00, 0x00, 0x00, 0x00, 0x00, 0x00, 0x00]) ∧
    (∀ callable props, encode false (Value.object callable (some 0) props) =
      Except.ok [0x08, 0x01, 0x00, 0x00, 0x00, 0x00, 0x00, 0x00, 0x00, 0x00]) := by
  refine ⟨by decide, fun callable props => ?_, fun callable props => ?_,
    fun callable props => ?_⟩
  · simp only [encode, Serialize, Serializer.new, clear, writeValue_date]
    rfl
  · simp only [encode, Serialize, Serializer.new, clear, writeValue_date]
    rfl
  · simp only [encode, Serialize, Serializer.new, clear, writeValue_date]
    rfl

/-- C13: undefined, null, false and true are each encoded in exactly one byte,
the marker 0x00, 0x01, 0x02 and 0x03, with no payload; on any buffer writeValue
appends that one byte. -/
theorem C13_single_marker_values (bigEndian : Bool) (buf : List Nat) :
    encode bigEndian Value.undefined = Except.ok [0x00] ∧
    encode bigEndian Value.null = Except.ok [0x01] ∧
    encode bigEndian (Value.boolean false) = Except.ok [0x02] ∧
    encode bigEndian (Value.boolean true) = Except.ok [0x03] ∧
    writeValue bigEndian Value.undefined buf = Except.ok (buf ++ [AMF.AMF3_UNDEFINED]) ∧
    writeValue bigEndian Value.null buf = Except.ok (buf ++ [AMF.AMF3_NULL]) ∧
    writeValue bigEndian (Value.boolean false) buf = Except.ok (buf ++ [AMF.AMF3_FALSE]) ∧
    writeValue bigEndian (Value.boolean true) buf = Except.ok (buf ++ [AMF.AMF3_TRUE]) := by
  refine ⟨?_, ?_, ?_, ?_, ?_, ?_, ?_, ?_⟩
  · cases bigEndian <;> rfl
  · cases bigEndian <;> rfl
  · cases bigEndian <;> rfl
  · cases bigEndian <;> rfl
  · simp [writeValue, writeUndefined, writeU8, AMF.AMF3_UNDEFINED]
  · simp [writeValue, writeNull, writeU8, AMF.AMF3_NULL]
  · simp [writeValue, writeBool, writeU8, AMF.AMF3_FALSE]
  · simp [writeValue, writeBool, writeU8, AMF.AMF3_TRUE]

/-- C14 (the claim fails for its example): a callable at the top level is a V8
object, so writeValue takes the object path and appends the ten bytes of an
object without written properties; the buffer is not left as it was. -/
theorem C14_top_level_function_is_written :
    (Value.object true none []).IsFunction = true ∧
    (Value.object true none []).IsObject = true ∧
    writeValue false (Value.object true none []) [] =
      Except.ok [0x0A, 0x0B, 0x0D, 0x4F, 0x62, 0x6A, 0x65, 0x63, 0x74, 0x01] ∧
    writeValue false (Value.object true none []) [] ≠ Except.ok [] := by
  have h : writeValue false (Value.object true none []) [] =
      Except.ok [0x0A, 0x0B, 0x0D, 0x4F, 0x62, 0x6A, 0x65, 0x63, 0x74, 0x01] := rfl
  refine ⟨rfl, rfl, h, ?_⟩
  rw [h]
  intro hne
  injection hne with hl
  revert hl
  decide

/-- C14 (amended): for every value that none of the type tests of writeValue
accepts (not undefined, null, a string, a number, a boolean, an array or an
object, a callable being an object), writeValue appends no bytes and raises no
error: the buffer is left exactly as it was. -/
theorem C14_unmatched_value_writes_nothing (bigEndian : Bool) (v : Value) (buf : List Nat)
    (h1 : v.IsUndefined = false) (h2 : v.IsNull = false) (h3 : v.IsString = false)
    (h4 : v.IsNumber = false) (h5 : v.IsBoolean = false) (h6 : v.IsArray = false)
    (h7 : v.IsObject = false) :
    writeValue bigEndian v buf = Except.ok buf := by
  cases v with
  | undefined => simp [Value.IsUndefined] at h1
  | null => simp [Value.IsNull] at h2
  | string s => simp [Value.IsString] at h3
  | number d => simp [Value.IsNumber] at h4
  | boolean b => simp [Value.IsBoolean] at h5
  | array f es => simp [Value.IsArray] at h6
  | object c g ps => simp [Value.IsObject] at h7
  | other => simp [writeValue]

/-- The theorem of C14 at the value `other`, on the buffer holding 09 01. -/
theorem C14_unmatched_value_writes_nothing_witness :
    Value.other.IsUndefined = false ∧ Value.other.IsNull = false ∧
    Value.other.IsString = false ∧ Value.other.IsNumber = false ∧
    Value.other.IsBoolean = false ∧ Value.other.IsArray = false ∧
    Value.other.IsObject = false ∧
    writeValue false Value.other [0x09, 0x01] = Except.ok [0x09, 0x01] :=
  ⟨rfl, rfl, rfl, rfl, rfl, rfl, rfl,
    C14_unmatched_value_writes_nothing false Value.other [0x09, 0x01] rfl rfl rfl rfl rfl rfl rfl⟩

/-- C15: writeU29 fails with the range error exactly when n < 0, and then hands
back no buffer at all; it succeeds exactly when n >= 0, appending to the buffer. -/
theorem C15_writeU29_range_error (n : Int) (writeMarker : Bool) (buf : List Nat) :
    (writeU29 n writeMarker buf = Except.error "U29 range error - negative number" ↔ n < 0) ∧
    ((∃ msg, writeU29 n writeMarker buf = Except.error msg) ↔ n < 0) ∧
    ((∃ out, writeU29 n writeMarker buf = Except.ok (buf ++ out)) ↔ 0 ≤ n) := by
  by_cases h : n < 0
  · have he : writeU29 n writeMarker buf = Except.error "U29 range error - negative number" := by
      simp [writeU29, h, die]
    refine ⟨⟨fun _ => h, fun _ => he⟩, ⟨fun _ => h, fun _ => ⟨_, he⟩⟩, ⟨?_, fun h0 => ?_⟩⟩
    · rintro ⟨out, ho⟩
      rw [he] at ho
      cases ho
    · exact absurd h (not_lt.mpr h0)
  · have h0 : 0 ≤ n := not_lt.mp h
    have ho := writeU29_ok n h0 writeMarker buf
    refine ⟨⟨fun he => ?_, fun hn => absurd hn h⟩, ⟨?_, fun hn => absurd hn h⟩,
      ⟨fun _ => h0, fun _ => ?_⟩⟩
    · rw [ho] at he
      cases he
    · rintro ⟨msg, he⟩
      rw [ho] at he
      cases he
    · exact ⟨(if writeMarker then [AMF.AMF3_INTEGER] else []) ++ u29Wire n.toNat, by
        rw [ho, List.append_assoc]⟩

/-- C17 (defect of the code): writeU29 has no upper bound; for n = 2^28 + 1,
the length header of an array of 2^27 elements, it emits five bytes, and for the
largest int64 nine. Below 2^28 there are at most four. -/
theorem C17_writeU29_five_bytes :
    lengthFlag 134217728 = 268435457 ∧
    writeU29 268435457 false [] = Except.ok [0x81, 0x80, 0x80, 0x80, 0x01] ∧
    writeU29 (2 ^ 63 - 1) false [] =
      Except.ok [0xFF, 0xFF, 0xFF, 0xFF, 0xFF, 0xFF, 0xFF, 0xFF, 0x7F] ∧
    writeU29 (2 ^ 28 - 1) false [] = Except.ok [0xFF, 0xFF, 0xFF, 0x7F] :=
  ⟨by decide, rfl, rfl, rfl⟩

/-! ## The bytes of writeU29 as base-128 digits -/

theorem or_0x80_mod (x : Nat) : (0x80 ||| x) % 256 = 128 + x % 128 := by
  have e : 128 + x % 128 = 2 ^ 7 * 1 ||| x % 2 ^ 7 := by
    rw [← Nat.mul_add_lt_is_or (Nat.mod_lt _ (by norm_num))]
  rw [e]
  apply Nat.eq_of_testBit_eq
  intro i
  have h256 : (256 : Nat) = 2 ^ 8 := by norm_num
  have h128 : (0x80 : Nat) = 2 ^ 7 := by norm_num
  rw [h256, h128, Nat.testBit_mod_two_pow, Nat.testBit_or, Nat.testBit_or, Nat.mul_one,
    Nat.testBit_two_pow, Nat.testBit_mod_two_pow]
  by_cases h7 : i = 7
  · subst h7; simp
  · by_cases hl : i < 7
    · have : i < 8 := by omega
      simp [hl, this]
    · have : ¬ i < 8 := by omega
      have h7' : ¬ 7 = i := fun h => h7 h.symm
      simp [hl, this, h7']

theorem and_0x7F (n : Nat) : n &&& 0x7F = n % 128 := by
  have := Nat.and_pow_two_sub_one_eq_mod n 7
  simpa using this

theorem u29Loop_digits :
    ∀ (fuel n : Nat) (bytes : List Nat), n ≤ fuel →
      u29Loop fuel n bytes = bytes ++ (Nat.digits 128 (n / 128)).map (fun d => d + 128)
  | 0, n, bytes, h => by
    have hn : n = 0 := Nat.le_zero.mp h
    subst hn
    simp [u29Loop]
  | fuel + 1, n, bytes, h => by
    rw [u29Loop]
    by_cases hc : 0x80 ≤ n
    · have h7 : (7 &&& 0x7F) = 7 := by decide
      have hs : n >>> 7 = n / 128 := by rw [Nat.shiftRight_eq_div_pow]
      have hpos : 0 < n / 128 := Nat.div_pos hc (by norm_num)
      have hlt : n / 128 < n := Nat.div_lt_self (by omega) (by norm_num)
      simp only [hc, if_true, h7, hs]
      rw [u29Loop_digits fuel (n / 128) _ (by omega), or_0x80_mod,
        Nat.digits_def' (by norm_num : 1 < 128) hpos]
      simp [Nat.add_comm]
    · have hz : n / 128 = 0 := Nat.div_eq_of_lt (by omega)
      simp [hc, hz]

theorem u29Wire_eq (n : Nat) :
    u29Wire n = ((Nat.digits 128 (n / 128)).map (fun d => d + 128)).reverse ++ [n % 128] := by
  unfold u29Wire u29Bytes
  rw [u29Loop_digits n n _ (Nat.le_refl n), and_0x7F]
  have h1 : n % 128 % 256 = n % 128 := Nat.mod_eq_of_lt (by omega)
  rw [h1]
  have hrev : ([n % 128] ++ (Nat.digits 128 (n / 128)).map (fun d => d + 128)).reverse =
      ((Nat.digits 128 (n / 128)).map (fun d => d + 128)).reverse ++ [n % 128] := by
    simp
  rw [hrev]
  apply map_mod_of_lt
  intro x hx
  simp only [List.mem_append, List.mem_singleton, List.mem_reverse, List.mem_map] at hx
  rcases hx with ⟨d, hd, rfl⟩ | rfl
  · have := Nat.digits_lt_base (by norm_num : 1 < 128) hd
    omega
  · omega

theorem readGroups_append_singleton (xs : List Nat) (y : Nat) :
    readGroups (xs ++ [y]) = readGroups xs * 128 + y % 128 := by
  simp [readGroups, List.foldl_append]

theorem readGroups_high_digits :
    ∀ L : List Nat, (∀ d ∈ L, d < 128) →
      readGroups ((L.map (fun d => d + 128)).reverse) = Nat.ofDigits 128 L
  | [], _ => by simp [readGroups]
  | d :: L, h => by
    have hd : d < 128 := h d (List.mem_cons_self _ _)
    have ih := readGroups_high_digits L (fun x hx => h x (List.mem_cons_of_mem _ hx))
    rw [List.map_cons, List.reverse_cons, readGroups_append_singleton, ih, Nat.ofDigits_cons]
    have : (d + 128) % 128 = d := by omega
    rw [this]
    ring

theorem readGroups_u29Wire (n : Nat) : readGroups (u29Wire n) = n := by
  rw [u29Wire_eq, readGroups_append_singleton,
    readGroups_high_digits _ (fun d hd => Nat.digits_lt_base (by norm_num) hd),
    Nat.ofDigits_digits, Nat.mod_mod]
  exact Nat.div_add_mod' n 128

theorem u29Wire_length_le (n : Nat) : (u29Wire n).length ≤ Nat.size n / 7 + 1 := by
  rw [u29Wire_eq]
  simp only [List.length_append, List.length_reverse, List.length_map, List.length_singleton]
  apply Nat.succ_le_succ
  by_cases hz : n / 128 = 0
  · rw [hz]
    simp
  · have h1 := Nat.base_pow_length_digits_le 128 (n / 128) (by norm_num) hz
    have h2 : 128 * (n / 128) ≤ n := Nat.mul_div_le n 128
    have h3 : n < 2 ^ Nat.size n := Nat.lt_size_self n
    have h4 : Nat.size n < 7 * (Nat.size n / 7 + 1) := by omega
    have h5 : 2 ^ Nat.size n < 2 ^ (7 * (Nat.size n / 7 + 1)) :=
      Nat.pow_lt_pow_right (by norm_num) h4
    have h6 : (2 : Nat) ^ (7 * (Nat.size n / 7 + 1)) = 128 ^ (Nat.size n / 7 + 1) := by
      rw [pow_mul]
      norm_num
    have h7 : 128 ^ (Nat.digits 128 (n / 128)).length < 128 ^ (Nat.size n / 7 + 1) := by
      rw [← h6]
      omega
    have h8 := (Nat.pow_lt_pow_iff_right (by norm_num : 1 < 128)).mp h7
    omega

theorem u29Wire_head_ne_0x80 (n : Nat) : (u29Wire n).head? ≠ some 0x80 := by
  rw [u29Wire_eq]
  by_cases hz : n / 128 = 0
  · rw [hz]
    simp only [Nat.digits_zero, List.map_nil, List.reverse_nil, List.nil_append, List.head?_cons]
    intro h
    have h2 : n % 128 = 0x80 := Option.some.inj h
    omega
  · have hne : Nat.digits 128 (n / 128) ≠ [] := Nat.digits_ne_nil_iff_ne_zero.mpr hz
    have hlast := Nat.getLast_digit_ne_zero 128 hz
    obtain ⟨front, top, hft⟩ : ∃ front top, Nat.digits 128 (n / 128) = front ++ [top] :=
      ⟨_, _, (List.dropLast_append_getLast hne).symm⟩
    have htop : top ≠ 0 := by
      have : (Nat.digits 128 (n / 128)).getLast hne = top := by
        simp [hft]
      rw [this] at hlast
      exact hlast
    rw [hft]
    simp only [List.map_append, List.map_cons, List.map_nil, List.reverse_append,
      List.reverse_cons, List.reverse_nil, List.nil_append, List.singleton_append,
      List.cons_append, List.head?_cons]
    intro h
    have h2 : top + 128 = 0x80 := Option.some.inj h
    omega

/-- C16: for every n >= 0 the bytes writeU29 emits after the optional marker are
the base-128 digits of n, most significant group first, without a leading zero
group (the single byte 00 for n = 0); every byte but the last has its high bit
set, the last has it clear; reading seven payload bits per byte gives back n. -/
theorem C16_writeU29_base128 (n : Nat) (buf : List Nat) :
    writeU29 (n : Int) false buf = Except.ok (buf ++ u29Wire n) ∧
    writeU29 (n : Int) true buf = Except.ok (buf ++ AMF.AMF3_INTEGER :: u29Wire n) ∧
    (u29Wire n).map (fun b => b % 128) = (if n = 0 then [0] else (Nat.digits 128 n).reverse) ∧
    (u29Wire n).head? ≠ some 0x80 ∧
    (∀ b ∈ (u29Wire n).dropLast, 0x80 ≤ b ∧ b < 0x100) ∧
    (u29Wire n).getLast? = some (n % 128) ∧ n % 128 < 0x80 ∧
    readGroups (u29Wire n) = n := by
  refine ⟨?_, ?_, ?_, u29Wire_head_ne_0x80 n, ?_, ?_, Nat.mod_lt _ (by norm_num),
    readGroups_u29Wire n⟩
  · rw [writeU29_ok _ (Int.natCast_nonneg _)]
    simp
  · rw [writeU29_ok _ (Int.natCast_nonneg _)]
    simp
  · rw [u29Wire_eq]
    have hm : ((Nat.digits 128 (n / 128)).map (fun d => d + 128)).reverse.map (fun b => b % 128) =
        (Nat.digits 128 (n / 128)).reverse := by
      rw [← List.map_reverse, List.map_map]
      have : ∀ d ∈ (Nat.digits 128 (n / 128)).reverse,
          ((fun b => b % 128) ∘ (fun d => d + 128)) d = d := by
        intro d hd
        have := Nat.digits_lt_base (by norm_num : 1 < 128) (List.mem_reverse.mp hd)
        simp only [Function.comp]
        omega
      rw [List.map_congr_left this, List.map_id']
    rw [List.map_append, hm]
    by_cases h0 : n = 0
    · subst h0
      simp
    · rw [if_neg h0, Nat.digits_def' (by norm_num : 1 < 128) (Nat.pos_of_ne_zero h0)]
      simp
  · intro b hb
    rw [u29Wire_eq, List.dropLast_concat] at hb
    simp only [List.mem_reverse, List.mem_map] at hb
    obtain ⟨d, hd, rfl⟩ := hb
    have := Nat.digits_lt_base (by norm_num : 1 < 128) hd
    omega
  · rw [u29Wire_eq]
    simp

theorem writeNumber_integer (bigEndian : Bool) (d n : Nat) (hf : Double.isFinite d)
    (hv : Double.value d = (n : ℚ)) (hn : n < 2 ^ 25) (writeMarker : Bool) (buf : List Nat) :
    writeNumber bigEndian d writeMarker buf =
      Except.ok (buf ++ (if writeMarker then [AMF.AMF3_INTEGER] else []) ++ u29Wire n) := by
  have hv' : Double.value d = (((n : ℤ)) : ℚ) := by simpa using hv
  have h0 : (0 : ℤ) ≤ (n : ℤ) := Int.natCast_nonneg _
  have h1 : (n : ℤ) < 2 ^ 25 := by exact_mod_cast hn
  have ht := Double.toInt64_of_value d n hf hv' h0 h1
  have hr : compactRule d := by
    refine ⟨hf, ⟨n, hv'⟩, ?_, ?_⟩
    · rw [hv]
      exact_mod_cast Nat.zero_le n
    · rw [hv]
      exact_mod_cast hn
  have hc := (writeNumber_test_iff d).mpr hr
  unfold writeNumber
  simp only [hc, if_true]
  rw [ht, writeU29_ok _ h0]
  simp

/-- C18: for every integer n with 0 <= n < 2^25 (given as a number whose value
is n), encode(n) succeeds and its length, marker and U29 bytes together, is at
most ceil((bits(n) + 1) / 7) + 1, bits(n) being the bit length of n. -/
theorem C18_integer_length_bound (bigEndian : Bool) (d n : Nat) (hf : Double.isFinite d)
    (hv : Double.value d = (n : ℚ)) (hn : n < 2 ^ 25) :
    ∃ out, encode bigEndian (Value.number d) = Except.ok out ∧
      out = AMF.AMF3_INTEGER :: u29Wire n ∧
      out.length ≤ (Nat.size n + 1 + 6) / 7 + 1 := by
  refine ⟨AMF.AMF3_INTEGER :: u29Wire n, ?_, rfl, ?_⟩
  · simp only [encode, Serialize, Serializer.new, clear, writeValue]
    rw [writeNumber_integer bigEndian d n hf hv hn]
    simp [bind, Except.bind, pure, Except.pure, Except.map]
  · have := u29Wire_length_le n
    simp only [List.length_cons]
    omega

/-- The bound of C18 at n = 2097152, the number with bits 0x4140000000000000. -/
theorem C18_integer_length_bound_witness :
    Double.isFinite 0x4140000000000000 ∧
    Double.value 0x4140000000000000 = ((2097152 : Nat) : ℚ) ∧
    2097152 < 2 ^ 25 ∧
    ∃ out, encode false (Value.number 0x4140000000000000) = Except.ok out ∧
      out = AMF.AMF3_INTEGER :: u29Wire 2097152 ∧
      out.length ≤ (Nat.size 2097152 + 1 + 6) / 7 + 1 :=
  ⟨by unfold Double.isFinite; decide,
   by norm_num [Double.value, Double.sign, Double.significand, Double.scale, Double.expo,
     Double.frac],
   by decide,
   C18_integer_length_bound false 0x4140000000000000 2097152
     (by unfold Double.isFinite; decide)
     (by norm_num [Double.value, Double.sign, Double.significand, Double.scale, Double.expo,
       Double.frac])
     (by decide)⟩

/-! ## Every writer only appends -/

theorem AppendOnly.of_ok (f : List Nat → Except String (List Nat)) (out : List Nat)
    (h : ∀ buf, f buf = Except.ok (buf ++ out)) : AppendOnly f :=
  Or.inl ⟨out, h⟩

theorem AppendOnly.bind {f g : List Nat → Except String (List Nat)}
    (hf : AppendOnly f) (hg : AppendOnly g) : AppendOnly (fun buf => f buf >>= g) := by
  rcases hf with ⟨o1, h1⟩ | ⟨m1, h1⟩
  · rcases hg with ⟨o2, h2⟩ | ⟨m2, h2⟩
    · refine Or.inl ⟨o1 ++ o2, fun buf => ?_⟩
      simp only [h1, Bind.bind, Except.bind, h2, List.append_assoc]
    · refine Or.inr ⟨m2, fun buf => ?_⟩
      simp only [h1, Bind.bind, Except.bind, h2]
  · refine Or.inr ⟨m1, fun buf => ?_⟩
    simp only [h1, Bind.bind, Except.bind]

theorem AppendOnly.after_append {f : List Nat → Except String (List Nat)} (xs : List Nat)
    (hf : AppendOnly f) : AppendOnly (fun buf => f (buf ++ xs)) := by
  rcases hf with ⟨o1, h1⟩ | ⟨m1, h1⟩
  · exact Or.inl ⟨xs ++ o1, fun buf => by simp only [h1, List.append_assoc]⟩
  · exact Or.inr ⟨m1, fun buf => by simp only [h1]⟩

theorem AppendOnly.map_eq {f : List Nat → Except String (List Nat)} (hf : AppendOnly f)
    (buf : List Nat) : f buf = (f []).map (fun out => buf ++ out) := by
  rcases hf with ⟨o1, h1⟩ | ⟨m1, h1⟩
  · rw [h1 buf, h1 []]
    simp [Except.map]
  · rw [h1 buf, h1 []]
    simp [Except.map]

theorem writeU29_appendOnly (n : Int) (writeMarker : Bool) :
    AppendOnly (writeU29 n writeMarker) := by
  by_cases h : n < 0
  · exact Or.inr ⟨"U29 range error - negative number", fun buf => by simp [writeU29, h, die]⟩
  · refine Or.inl ⟨(if writeMarker then [AMF.AMF3_INTEGER] else []) ++ u29Wire n.toNat,
      fun buf => ?_⟩
    rw [writeU29_ok n (not_lt.mp h), List.append_assoc]

theorem writeUTF8_appendOnly (s : String) (writeMarker : Bool) :
    AppendOnly (writeUTF8 s writeMarker) := by
  have hfun : writeUTF8 s writeMarker = fun buf =>
      (writeU29 (lengthFlag (utf8Bytes s).length) writeMarkerDefault
        (buf ++ (if writeMarker then [AMF.AMF3_STRING] else []))) >>=
      fun b2 => Except.ok (b2 ++ utf8Bytes s) := by
    funext buf
    simp only [writeUTF8, writeU8_foldl, map_mod_of_lt _ (utf8Bytes_lt s)]
    cases writeMarker <;> simp [writeU8, AMF.AMF3_STRING, pure, Except.pure]
  rw [hfun]
  exact AppendOnly.bind
    (AppendOnly.after_append _ (writeU29_appendOnly _ _))
    (AppendOnly.of_ok _ (utf8Bytes s) (fun _ => rfl))

theorem writeNumber_appendOnly (bigEndian : Bool) (d : Nat) (writeMarker : Bool) :
    AppendOnly (writeNumber bigEndian d writeMarker) := by
  obtain ⟨out, hout⟩ := writeNumber_append bigEndian d writeMarker
  exact Or.inl ⟨out, hout⟩

mutual

theorem writeValue_appendOnly (bigEndian : Bool) :
    ∀ v : Value, AppendOnly (writeValue bigEndian v)
  | Value.undefined => Or.inl ⟨[AMF.AMF3_UNDEFINED], fun buf => by
      simp [writeValue, writeUndefined, writeU8, AMF.AMF3_UNDEFINED]⟩
  | Value.null => Or.inl ⟨[AMF.AMF3_NULL], fun buf => by
      simp [writeValue, writeNull, writeU8, AMF.AMF3_NULL]⟩
  | Value.string s => by
      have hfun : writeValue bigEndian (Value.string s) = writeUTF8 s true := by
        funext buf
        simp only [writeValue]
      rw [hfun]
      exact writeUTF8_appendOnly s true
  | Value.number d => by
      have hfun : writeValue bigEndian (Value.number d) = writeNumber bigEndian d true := by
        funext buf
        simp only [writeValue]
      rw [hfun]
      exact writeNumber_appendOnly bigEndian d true
  | Value.boolean b => Or.inl ⟨[(if b then AMF.AMF3_TRUE else AMF.AMF3_FALSE) % 256], fun buf => by
      simp [writeValue, writeBool, writeU8]⟩
  | Value.array fast elems => by
      have hfun : writeValue bigEndian (Value.array fast elems) = fun buf =>
          (writeU29 (lengthFlag elems.length) writeMarkerDefault (buf ++ [AMF.AMF3_ARRAY % 256])) >>=
          fun b2 => writeUTF8 "" writeMarkerDefault b2 >>=
          fun b3 => writeElements bigEndian fast (int32OfBits elems.length).toNat elems b3 := by
        funext buf
        simp only [writeValue, writeU8]
      rw [hfun]
      exact AppendOnly.bind (AppendOnly.after_append _ (writeU29_appendOnly _ _))
        (AppendOnly.bind (writeUTF8_appendOnly _ _)
          (writeElements_appendOnly bigEndian fast _ elems))
  | Value.object callable (some t) props => by
      refine Or.inl ⟨[AMF.AMF3_DATE] ++ u29Wire 1 ++ writeDouble bigEndian t false [], fun buf => ?_⟩
      rw [writeValue_date, writeDateIf_some]
      rfl
  | Value.object callable none props => by
      have hfun : writeValue bigEndian (Value.object callable none props) = fun buf =>
          (writeU29 INSTANCE_NO_TRAITS_NO_EXTERNALIZABLE writeMarkerDefault
            (buf ++ [AMF.AMF3_OBJECT % 256])) >>=
          fun b2 => writeUTF8 "Object" writeMarkerDefault b2 >>=
          fun b3 => writeProperties bigEndian props b3 >>=
          fun b4 => writeUTF8 "" writeMarkerDefault b4 := by
        funext buf
        rw [writeValue_object]
        simp only [writeObject, writeU8]
      rw [hfun]
      exact AppendOnly.bind (AppendOnly.after_append _ (writeU29_appendOnly _ _))
        (AppendOnly.bind (writeUTF8_appendOnly _ _)
          (AppendOnly.bind (writeProperties_appendOnly bigEndian props)
            (writeUTF8_appendOnly _ _)))
  | Value.other => Or.inl ⟨[], fun buf => by simp [writeValue]⟩

theorem writeElements_appendOnly (bigEndian : Bool) (fast : Bool) :
    ∀ (count : Nat) (elems : List Value),
      AppendOnly (writeElements bigEndian fast count elems)
  | 0, _ => Or.inl ⟨[], fun buf => by simp [writeElements]⟩
  | _ + 1, [] => Or.inl ⟨[], fun buf => by simp [writeElements]⟩
  | count + 1, e :: rest => by
      have ih2 := writeElements_appendOnly bigEndian fast count rest
      by_cases hc : (fast && e.IsObject) = true
      · have hfun : writeElements bigEndian fast (count + 1) (e :: rest) = fun buf =>
            writeValue bigEndian e buf >>=
            fun b => writeElements bigEndian fast count rest b := by
          funext buf
          simp only [writeElements, hc, if_true]
        rw [hfun]
        exact AppendOnly.bind (writeValue_appendOnly bigEndian e) ih2
      · have hfun : writeElements bigEndian fast (count + 1) (e :: rest) = fun buf =>
            (Except.ok (buf ++ [AMF.AMF3_UNDEFINED % 256]) : Except String (List Nat)) >>=
            fun b => writeElements bigEndian fast count rest b := by
          funext buf
          simp only [writeElements, hc, writeUndefined, writeU8]
          rfl
        rw [hfun]
        exact AppendOnly.bind (AppendOnly.of_ok _ _ (fun _ => rfl)) ih2

theorem writeProperties_appendOnly (bigEndian : Bool) :
    ∀ props : List (Property Value), AppendOnly (writeProperties bigEndian props)
  | [] => Or.inl ⟨[], fun buf => by simp [writeProperties]⟩
  | p :: rest => by
      have ih2 := writeProperties_appendOnly bigEndian rest
      by_cases hw : p.real = true ∧ p.value.IsFunction = false
      · have hfun : writeProperties bigEndian (p :: rest) = fun buf =>
            writeUTF8 p.name writeMarkerDefault buf >>=
            fun b1 => writeValue bigEndian p.value b1 >>=
            fun b2 => writeProperties bigEndian rest b2 := by
          funext buf
          simp [writeProperties, hw.1, hw.2]
        rw [hfun]
        exact AppendOnly.bind (writeUTF8_appendOnly _ _)
          (AppendOnly.bind (writeValue_appendOnly bigEndian p.value) ih2)
      · have hfun : writeProperties bigEndian (p :: rest) = writeProperties bigEndian rest := by
          funext buf
          by_cases hr : p.real = true
          · have hf : p.value.IsFunction = true := by
              by_contra hf
              exact hw ⟨hr, by simpa using hf⟩
            simp [writeProperties, hr, hf]
          · simp [writeProperties, hr]
        rw [hfun]
        exact ih2

end

theorem lengthFlag_nonneg (len : Nat) (h : len < 2 ^ 30) : 0 ≤ lengthFlag len := by
  rw [lengthFlag_small len h]
  exact Int.natCast_nonneg _

/-- C19: for every value whose strings (property names included) have fewer
than 2^30 UTF-8 bytes and whose arrays have fewer than 2^30 elements, writeValue
runs to its end on every buffer and so does serialize: the range error of
writeU29, the only abort inside writeValue, is never raised. Its three sources
of arguments are safe: writeNumber never aborts, whatever the number; every
length header (len << 1) | 1 with len < 2^30 is non-negative (at len = 2^30 it
is negative); and the constants 1 and 11 are non-negative. -/
theorem C19_range_error_unreachable (bigEndian : Bool) (v : Value) (self : State)
    (h : v.fits = true) :
    (∃ out, (∀ buf, writeValue bigEndian v buf = Except.ok (buf ++ out)) ∧
      Serialize bigEndian self [v] =
        Except.ok (self.buffer_ ++ out, State.mk (self.buffer_ ++ out))) ∧
    (∀ d writeMarker, ∃ out, ∀ buf,
      writeNumber bigEndian d writeMarker buf = Except.ok (buf ++ out)) ∧
    (∀ len, len < 2 ^ 30 → 0 ≤ lengthFlag len) ∧
    lengthFlag (2 ^ 30) < 0 ∧
    (0 : Int) ≤ 1 ∧ 0 ≤ INSTANCE_NO_TRAITS_NO_EXTERNALIZABLE := by
  refine ⟨?_, fun d writeMarker => writeNumber_append bigEndian d writeMarker,
    lengthFlag_nonneg, by decide, by decide, by decide⟩
  obtain ⟨out, hout⟩ := writeValue_fits bigEndian v h
  refine ⟨out, hout, ?_⟩
  simp only [Serialize, hout, bind, Except.bind, pure, Except.pure]

/-- The theorem of C19 at the array holding an object with a string, a number
and a date, serialized on a fresh instance. -/
theorem C19_range_error_unreachable_witness :
    (Value.array true [Value.object false none
        [Property.mk "s" true (Value.string "x"),
         Property.mk "n" true (Value.number 0xBFF0000000000000),
         Property.mk "t" true (Value.object false (some 0) [])]]).fits = true ∧
    ((∃ out, (∀ buf, writeValue false (Value.array true [Value.object false none
        [Property.mk "s" true (Value.string "x"),
         Property.mk "n" true (Value.number 0xBFF0000000000000),
         Property.mk "t" true (Value.object false (some 0) [])]]) buf = Except.ok (buf ++ out)) ∧
      Serialize false Serializer.new [Value.array true [Value.object false none
        [Property.mk "s" true (Value.string "x"),
         Property.mk "n" true (Value.number 0xBFF0000000000000),
         Property.mk "t" true (Value.object false (some 0) [])]]] =
        Except.ok (Serializer.new.buffer_ ++ out, State.mk (Serializer.new.buffer_ ++ out))) ∧
    (∀ d writeMarker, ∃ out, ∀ buf,
      writeNumber false d writeMarker buf = Except.ok (buf ++ out)) ∧
    (∀ len, len < 2 ^ 30 → 0 ≤ lengthFlag len) ∧
    lengthFlag (2 ^ 30) < 0 ∧
    (0 : Int) ≤ 1 ∧ 0 ≤ INSTANCE_NO_TRAITS_NO_EXTERNALIZABLE) :=
  ⟨by decide, C19_range_error_unreachable false _ Serializer.new (by decide)⟩

/-- C20: the buffer is append-only. For every buffer b and every value v,
writeValue on b gives b followed by exactly the bytes writeValue gives on the
empty buffer (and aborts on b exactly when it aborts on the empty buffer); so
whenever it returns, b is an initial segment of the result and the length has
not decreased. writeU8 appends one byte and writeBinaryString appends the bytes
it writes on the empty buffer. -/
theorem C20_buffer_append_only (bigEndian : Bool) (v : Value) (b : List Nat) :
    writeValue bigEndian v b = (writeValue bigEndian v []).map (fun out => b ++ out) ∧
    (∀ res, writeValue bigEndian v b = Except.ok res →
      ∃ out, writeValue bigEndian v [] = Except.ok out ∧ res = b ++ out ∧
        b <+: res ∧ b.length ≤ res.length) ∧
    (∀ n, writeU8 n b = b ++ [n % 256]) ∧
    (∀ str len, writeBinaryString str len b = b ++ writeBinaryString str len []) := by
  have hmap := AppendOnly.map_eq (writeValue_appendOnly bigEndian v) b
  refine ⟨hmap, fun res hres => ?_, fun n => rfl, fun str len => ?_⟩
  · rw [hmap] at hres
    cases hempty : writeValue bigEndian v [] with
    | error msg =>
      rw [hempty] at hres
      simp [Except.map] at hres
    | ok out =>
      rw [hempty] at hres
      simp only [Except.map, Except.ok.injEq] at hres
      subst hres
      exact ⟨out, rfl, rfl, List.prefix_append b out, by simp⟩
  · simp only [writeBinaryString, writeU8_foldl_map]
    simp
